import Mathlib

/-!
Shallow embedding of `batsim_py/simulator.py` (classes `GridSimulatorHandler`
and `BatsimSimulatorHandler`) together with the data they manipulate.

Timestamps and speeds are modelled as rationals (`ℚ`), Python's `int(x)`
truncation as `pyInt`, Python dicts as association lists, the third-party
`SortedList` as a stable insertion into a list sorted by timestamp, and
fallible Python code (assertions, `KeyError`, `StopIteration`,
`ZeroDivisionError`, `NotImplementedError`) as `Option`-valued functions
returning `none` on the error paths.

Event dispatch to registered callbacks is modelled by appending the
dispatched events, in dispatch order, to a `dispatched` log field.
-/

namespace BatsimPy
/-- Python `int(q)` applied to a rational: truncation toward zero. -/
def pyInt (q : ℚ) : ℤ := if 0 ≤ q then ⌊q⌋ else -⌊-q⌋

/-- Power-state kinds, from `batsim_py.resource.PowerStateType`. -/
inductive PowerStateType
  | computation
  | sleep
  | switching_on
  | switching_off
deriving DecidableEq, Repr

/-- One power state of a node: `{id, kind, speed}`. -/
structure PowerState where
  id : ℕ
  type : PowerStateType
  speed : ℚ
deriving DecidableEq, Repr

/-- A compute resource: `{id, parent_node_id, speed}`. -/
structure Resource where
  id : ℕ
  parent_id : ℕ
  speed : ℚ
deriving DecidableEq, Repr

/-- A node: owns a fixed set of power states and resources, and an on/off flag. -/
structure Node where
  id : ℕ
  is_on : Bool
  power_states : List PowerState
  resources : List Resource
deriving DecidableEq, Repr

/-- The static platform topology: a list of nodes. -/
abbrev Platform := List Node

/-- Modelled from the spec: `Platform.get_node` returns the node with the
given id (the `Platform` class lives in `batsim_py/resource.py`, which is
not part of the sources; the spec describes the platform as a read-only
topology queried by node id). -/
def get_node (p : Platform) (nid : ℕ) : Option Node :=
  p.find? (fun n => n.id == nid)

def allResources (p : Platform) : List Resource :=
  (p.map Node.resources).flatten

/-- Modelled from the spec: `Platform.get_resources` returns the resource
objects having the given ids (from `batsim_py/resource.py`, not in the
sources; the spec says the platform is a read-only topology and an unknown
resource id is a fatal lookup miss, so claims only use it where every id
resolves). -/
def get_resources (p : Platform) (ids : List ℕ) : List Resource :=
  (allResources p).filter (fun r => ids.contains r.id)

/-- Job outcome states used by `execute_job` (`batsim_py.job.JobState`). -/
inductive JobState
  | COMPLETED_SUCCESSFULLY
  | COMPLETED_WALLTIME_REACHED
deriving DecidableEq, Repr

/-- Profile kinds (`WorkloadProfileType`); `delay` stands for the kinds
`execute_job` does not implement. -/
inductive WorkloadProfileType
  | parallel_homogeneous
  | parallel_homogeneous_total
  | delay
deriving DecidableEq, Repr

/-- An execution profile: kind and cpu work amount. -/
structure WorkloadProfile where
  type : WorkloadProfileType
  cpu : ℚ
deriving DecidableEq, Repr

/-- A job as stored in the pending table: id, profile name, resource count,
walltime and user. -/
structure Job where
  id : String
  profile : String
  res : ℕ
  walltime : ℚ
  user : String
deriving DecidableEq, Repr

/-- Notification kinds relevant to the handlers. -/
inductive NotifyType
  | no_more_static_job_to_submit
  | registration_finished
  | other
deriving DecidableEq, Repr

/-- Payloads of the events the handlers create or dispatch. -/
inductive EventData
  | simulationBegins
  | simulationEnds
  | jobSubmitted (job : Job)
  | jobStarted (job_id : String) (alloc : List ℕ)
  | jobCompleted (job_id : String) (job_state : JobState) (return_code : String) (alloc : List ℕ)
  | jobKilled (job_ids : List String)
  | jobRejected (job_id : String)
  | requestedCall
  | resourcePowerStateChanged (resources : List ℕ) (pstate : ℕ)
  | notifyData (t : NotifyType)
deriving DecidableEq, Repr

/-- The event type tags (`EventType` enum). -/
inductive EventType
  | SIMULATION_BEGINS
  | SIMULATION_ENDS
  | JOB_SUBMITTED
  | JOB_STARTED
  | JOB_COMPLETED
  | JOB_KILLED
  | JOB_REJECTED
  | REQUESTED_CALL
  | RESOURCE_POWER_STATE_CHANGED
  | NOTIFY
deriving DecidableEq, Repr

/-- An event: timestamp plus payload. -/
structure SimEvent where
  timestamp : ℚ
  data : EventData
deriving DecidableEq, Repr

def SimEvent.type (e : SimEvent) : EventType :=
  match e.data with
  | .simulationBegins => .SIMULATION_BEGINS
  | .simulationEnds => .SIMULATION_ENDS
  | .jobSubmitted _ => .JOB_SUBMITTED
  | .jobStarted _ _ => .JOB_STARTED
  | .jobCompleted _ _ _ _ => .JOB_COMPLETED
  | .jobKilled _ => .JOB_KILLED
  | .jobRejected _ => .JOB_REJECTED
  | .requestedCall => .REQUESTED_CALL
  | .resourcePowerStateChanged _ _ => .RESOURCE_POWER_STATE_CHANGED
  | .notifyData _ => .NOTIFY

/-- Stable insertion into a list kept sorted by `key` (the behaviour of the
`SortedList` container: equal keys keep insertion order). -/
def sortedInsert {α : Type} (key : α → ℚ) (e : α) : List α → List α
  | [] => [e]
  | x :: xs => if key e < key x then e :: x :: xs else x :: sortedInsert key e xs

/-- Python dict assignment `d[k] = v`: overwrite in place or append. -/
def dictInsert {β : Type} (k : String) (v : β) (l : List (String × β)) :
    List (String × β) :=
  if l.any (fun p => p.1 == k) then
    l.map (fun p => if p.1 == k then (k, v) else p)
  else
    l ++ [(k, v)]

/-- Python `del d[k]` (the caller checks presence separately). -/
def dictRemove {β : Type} (k : String) (l : List (String × β)) :
    List (String × β) :=
  l.filter (fun p => ¬ p.1 == k)

/-- Append values under a key of a Python `defaultdict(list)`; iteration
order is key insertion order. -/
def dAppend {κ : Type} [DecidableEq κ] (k : κ) (vs : List ℕ)
    (l : List (κ × List ℕ)) : List (κ × List ℕ) :=
  if l.any (fun p => p.1 = k) then
    l.map (fun p => if p.1 = k then (k, p.2 ++ vs) else p)
  else l ++ [(k, vs)]

/-- State of a `GridSimulatorHandler` instance. `curTime` is the private
`__current_time` float; `dispatched` logs every event delivered to the
registered callbacks, in dispatch order. -/
structure GridState where
  curTime : ℚ
  events : List SimEvent
  profiles : List (String × WorkloadProfile)
  submitter_ended : Bool
  is_running : Bool
  jobs : List (String × Job)
  platform : Platform
  dispatched : List SimEvent
deriving DecidableEq, Repr

namespace GridSimulatorHandler

/-- `current_time` property: `math.floor(self.__current_time)`. -/
def current_time (s : GridState) : ℤ := ⌊s.curTime⌋

/-- The fresh handler created by `__init__` (before `start`). -/
def initState (platform : Platform) : GridState :=
  { curTime := 0
    events := []
    profiles := []
    submitter_ended := true
    is_running := false
    jobs := []
    platform := platform
    dispatched := [] }

/-- `_dispatch_events`: pop and deliver queue-head events while their
timestamp equals `current_time`. -/
def _dispatch_events (s : GridState) : GridState :=
  let ct : ℚ := (current_time s : ℚ)
  { s with
    events := s.events.dropWhile (fun e => e.timestamp == ct)
    dispatched := s.dispatched ++ s.events.takeWhile (fun e => e.timestamp == ct) }

/-- `start`: requires not running; resets the clock and job table, queues a
`SimulationBegins` event at time 0, marks the handler running and
dispatches. The submitter/monitor wiring is external io and is omitted. -/
def start (s : GridState) (platform : Platform) : Option GridState :=
  if s.is_running then none
  else
    some (_dispatch_events
      { s with
        submitter_ended := false
        jobs := []
        curTime := 0
        platform := platform
        events := sortedInsert SimEvent.timestamp ⟨0, .simulationBegins⟩ s.events
        is_running := true })

/-- `finish`: no-op when not running; otherwise stop, clear the queue and
tables, queue a `SimulationEnds` event at `current_time` and dispatch it. -/
def finish (s : GridState) : GridState :=
  if s.is_running = false then s
  else
    _dispatch_events
      { s with
        is_running := false
        submitter_ended := true
        events := sortedInsert SimEvent.timestamp
          ⟨(current_time s : ℚ), .simulationEnds⟩ []
        profiles := []
        jobs := [] }

/-- `proceed_simulation`: asserts running; finishes when there is no more
work; otherwise advances the clock to the head event's timestamp and
dispatches; raises `RuntimeError` (modelled `none`) when the queue is empty
but jobs are pending or the submitter has not ended. -/
def proceed_simulation (s : GridState) : Option GridState :=
  if s.is_running = false then none
  else if s.events.length = 0 ∧ s.submitter_ended = true ∧ s.jobs.length = 0 then
    some (finish s)
  else
    match s.events with
    | e :: _ => some (_dispatch_events { s with curTime := e.timestamp })
    | [] => none

/-- `register_job`: store the job in the pending table and queue a
`JobSubmitted` event at `current_time`. -/
def register_job (s : GridState) (id profile : String) (res : ℕ)
    (walltime : ℚ) (user : String) : GridState :=
  let j : Job := ⟨id, profile, res, walltime, user⟩
  { s with
    jobs := dictInsert id j s.jobs
    events := sortedInsert SimEvent.timestamp
      ⟨(current_time s : ℚ), .jobSubmitted j⟩ s.events }

/-- `register_profile`: store the profile under its name. -/
def register_profile (s : GridState) (profile_name : String)
    (profile : WorkloadProfile) : GridState :=
  { s with profiles := dictInsert profile_name profile s.profiles }

/-- Minimum of the speeds of a resource list; `none` for the empty list
(Python `min()` of an empty iterable raises). -/
def minSpeed (rs : List Resource) : Option ℚ :=
  match rs.map Resource.speed with
  | [] => none
  | x :: xs => some (xs.foldl min x)

/-- `execute_job`: pop the job, compute the runtime from its profile and
the minimum allocated speed, and queue a `JobStarted` event at
`current_time` plus a `JobCompleted` event at
`current_time + min(runtime, walltime)` whose outcome depends on whether
the walltime exceeds the runtime. Error paths (`KeyError` on the job or
profile, empty allocation, division by zero, unsupported profile kind)
give `none`. -/
def execute_job (s : GridState) (job_id : String) (alloc : List ℕ) :
    Option GridState :=
  let event_1 : SimEvent := ⟨(current_time s : ℚ), .jobStarted job_id alloc⟩
  match s.jobs.lookup job_id with
  | none => none
  | some job =>
    match minSpeed (get_resources s.platform alloc) with
    | none => none
    | some min_speed =>
      match s.profiles.lookup job.profile with
      | none => none
      | some job_profile =>
        match (match job_profile.type with
          | .parallel_homogeneous =>
              if min_speed = 0 then none
              else some (pyInt (job_profile.cpu / min_speed))
          | .parallel_homogeneous_total =>
              if job.res = 0 ∨ min_speed = 0 then none
              else some (pyInt (job_profile.cpu / (job.res : ℚ) / min_speed))
          | .delay => none) with
        | none => none
        | some runtime =>
          let event_2 : SimEvent :=
            ⟨(current_time s : ℚ) + min (runtime : ℚ) job.walltime,
             .jobCompleted job_id
               (if job.walltime > (runtime : ℚ) then .COMPLETED_SUCCESSFULLY
                else .COMPLETED_WALLTIME_REACHED)
               "0" alloc⟩
          some { s with
            jobs := dictRemove job_id s.jobs
            events := sortedInsert SimEvent.timestamp event_2
              (sortedInsert SimEvent.timestamp event_1 s.events) }

/-- `reject_job`: `del self.__jobs[job_id]` — removes the job from the
pending table and nothing else; `KeyError` (modelled `none`) if absent. -/
def reject_job (s : GridState) (job_id : String) : Option GridState :=
  if s.jobs.any (fun p => p.1 == job_id) then
    some { s with jobs := dictRemove job_id s.jobs }
  else none

/-- Whether an event is a `JOB_COMPLETED` event for the given job id. -/
def isCompletedFor (i : String) (e : SimEvent) : Bool :=
  match e.data with
  | .jobCompleted j _ _ _ => j == i
  | _ => false

/-- Remove the first pending completion event for job `i`; `none`
(`StopIteration` in the source) when there is none. -/
def popFirstCompleted (i : String) : List SimEvent → Option (List SimEvent)
  | [] => none
  | e :: es =>
    if isCompletedFor i e then some es
    else (popFirstCompleted i es).map (e :: ·)

/-- `kill_job`: for each id pop its first pending completion event
(raising when there is none), then queue one `JobKilled` event at
`current_time` listing all the ids. -/
def kill_job (s : GridState) (job_ids : List String) : Option GridState :=
  match job_ids.foldlM (fun acc i => popFirstCompleted i acc) s.events with
  | none => none
  | some evs =>
    some { s with
      events := sortedInsert SimEvent.timestamp
        ⟨(current_time s : ℚ), .jobKilled job_ids⟩ evs }

/-- `call_me_later`: floor the requested time, assert it is not in the
past, and queue a `RequestedCall` event unless one already exists at that
timestamp among the events up to it. -/
def call_me_later (s : GridState) (at0 : ℚ) : Option GridState :=
  let at1 : ℤ := ⌊at0⌋
  if at1 < current_time s then none
  else
    let front := s.events.takeWhile (fun e => e.timestamp ≤ (at1 : ℚ))
    if front.any (fun e => e.type == .REQUESTED_CALL && e.timestamp == (at1 : ℚ)) then
      some s
    else
      some { s with
        events := sortedInsert SimEvent.timestamp
          ⟨(at1 : ℚ), .requestedCall⟩ s.events }

/-- Accumulator of the planning loop of `set_resources_pstate`:
the `timestamps` and `transitions` defaultdicts, the `nodes_visited` set
and the leaked loop variable `r` (last resource iterated over). -/
structure PlanAcc where
  timestamps : List (ℤ × List ℕ)
  transitions : List (ℕ × List ℕ)
  visited : List ℕ
  lastRes : Option Resource
deriving Repr

/-- One iteration of the planning loop of `set_resources_pstate` over a
requested resource: skip already-visited nodes; otherwise look up the
target power state on the owning node, determine the transition state
(switching-off before sleep, switching-on before computation when the node
is off, none otherwise), compute `int(1/speed)` for it, and record every
resource of the node under its switch delay and transition id. `none`
models the raised lookup/zero-division/unbound-variable errors. -/
def processResource (p : Platform) (pstate : ℕ) (acc : PlanAcc)
    (resource : Resource) : Option PlanAcc :=
  if acc.visited.contains resource.parent_id then some acc
  else
    match get_node p resource.parent_id with
    | none => none
    | some n =>
      match n.power_states.find? (fun ps => ps.id == pstate) with
      | none => none
      | some next_ps =>
        match (if next_ps.type = .sleep then
            (n.power_states.find? (fun ps => ps.type == .switching_off)).map some
          else if next_ps.type = .computation ∧ n.is_on = false then
            (n.power_states.find? (fun ps => ps.type == .switching_on)).map some
          else some none) with
        | none => none
        | some trans_ps =>
          match (match trans_ps with
            | none => some (0 : ℤ)
            | some tp => if tp.speed = 0 then none else some (pyInt (1 / tp.speed))) with
          | none => none
          | some time_to_switch =>
            match (match n.resources.getLast? with
              | some x => some x
              | none => acc.lastRes) with
            | none => none
            | some r =>
              some { timestamps :=
                       dAppend time_to_switch (n.resources.map Resource.id) acc.timestamps
                     transitions :=
                       match trans_ps with
                       | none => acc.transitions
                       | some tp =>
                         dAppend tp.id (n.resources.map Resource.id) acc.transitions
                     visited := acc.visited ++ [r.parent_id]
                     lastRes :=
                       match n.resources.getLast? with
                       | some x => some x
                       | none => acc.lastRes }

/-- `set_resources_pstate`: run the planning loop over the requested
resources, then queue one power-state-changed event at `current_time` per
transition-state group and one at `current_time + time_to_switch` per
switch-delay group (carrying the target pstate). -/
def set_resources_pstate (s : GridState) (resources : List ℕ) (pstate : ℕ) :
    Option GridState :=
  match (get_resources s.platform resources).foldlM
      (processResource s.platform pstate) ⟨[], [], [], none⟩ with
  | none => none
  | some acc =>
    let evs1 := acc.transitions.foldl
      (fun evs pr => sortedInsert SimEvent.timestamp
        ⟨(current_time s : ℚ), .resourcePowerStateChanged pr.2 pr.1⟩ evs)
      s.events
    let evs2 := acc.timestamps.foldl
      (fun evs pr => sortedInsert SimEvent.timestamp
        ⟨(current_time s : ℚ) + (pr.1 : ℚ), .resourcePowerStateChanged pr.2 pstate⟩ evs)
      evs1
    some { s with events := evs2 }

/-- `notify`: mark the submitter ended on the two terminal notification
kinds and queue a `Notify` event at `current_time`. -/
def notify (s : GridState) (nt : NotifyType) : GridState :=
  let s1 :=
    if nt = .no_more_static_job_to_submit ∨ nt = .registration_finished then
      { s with submitter_ended := true }
    else s
  { s1 with
    events := sortedInsert SimEvent.timestamp
      ⟨(current_time s1 : ℚ), .notifyData nt⟩ s1.events }

end GridSimulatorHandler

/-- Request type tags (`RequestType` enum). -/
inductive RequestType
  | EXECUTE_JOB
  | REJECT_JOB
  | CALL_ME_LATER
  | KILL_JOB
  | REGISTER_JOB
  | REGISTER_PROFILE
  | SET_RESOURCE_STATE
  | CHANGE_JOB_STATE
  | NOTIFY
deriving DecidableEq, Repr

/-- Payloads of the outbound requests of the protocol backend. -/
inductive RequestData
  | executeJob (job_id : String) (alloc : List ℕ)
  | rejectJob (job_id : String)
  | callMeLater (at0 : ℚ)
  | killJob (job_ids : List String)
  | registerJob (id profile : String) (res : ℕ) (walltime : ℚ) (user : String)
  | registerProfile (workload_name profile_name : String) (profile : WorkloadProfile)
  | setResourceState (resources : List ℕ) (pstate : ℕ)
  | notifyReq (t : NotifyType)
deriving DecidableEq, Repr

/-- An outbound request: timestamp plus payload. -/
structure Request where
  timestamp : ℚ
  data : RequestData
deriving DecidableEq, Repr

def Request.type (r : Request) : RequestType :=
  match r.data with
  | .executeJob _ _ => .EXECUTE_JOB
  | .rejectJob _ => .REJECT_JOB
  | .callMeLater _ => .CALL_ME_LATER
  | .killJob _ => .KILL_JOB
  | .registerJob _ _ _ _ _ => .REGISTER_JOB
  | .registerProfile _ _ _ => .REGISTER_PROFILE
  | .setResourceState _ _ => .SET_RESOURCE_STATE
  | .notifyReq _ => .NOTIFY

/-- List union keeping the first list's order (set union of resource ids). -/
def listUnion (a b : List ℕ) : List ℕ := a ++ b.filter (fun x => ¬ a.contains x)

/-- Modelled from the spec: `SetResourceStateRequest.update_resources`
(defined in `batsim_py/network.py`, which is not part of the sources)
merges a later power-state request into this one by unioning the
resource-id sets; the spec (§4.4) says merging is "by unioning their
resource-id sets rather than sent as duplicates" and mentions no other
field, so the stored pstate is kept. On other request kinds it is not
called; modelled as the identity. -/
def Request.update_resources (r : Request) (res : List ℕ) : Request :=
  match r.data with
  | .setResourceState rs ps => ⟨r.timestamp, .setResourceState (listUnion rs res) ps⟩
  | _ => r

/-- An outbound protocol message: `{now, list of requests}`. -/
structure Message where
  now : ℤ
  requests : List Request
deriving DecidableEq, Repr

/-- State of a `BatsimSimulatorHandler` instance. `simulatorUp` models
whether the external `batsim` subprocess handle is alive; `dispatched`
logs every event delivered to the registered callbacks. -/
structure BatsimState where
  curTime : ℚ
  requests : List Request
  simulatorUp : Bool
  platform : Platform
  dispatched : List SimEvent
deriving DecidableEq, Repr

namespace BatsimSimulatorHandler

/-- `current_time` property: `math.floor(self.__current_time)`. -/
def current_time (s : BatsimState) : ℤ := ⌊s.curTime⌋

/-- `_append_request`: add to the timestamp-sorted request buffer. -/
def _append_request (s : BatsimState) (r : Request) : BatsimState :=
  { s with requests := sortedInsert Request.timestamp r s.requests }

/-- `reject_job`: queue a `RejectJobRequest` at `current_time`. -/
def reject_job (s : BatsimState) (job_id : String) : BatsimState :=
  _append_request s ⟨(current_time s : ℚ), .rejectJob job_id⟩

/-- `call_me_later`: queue a `CallMeLaterRequest` carrying
`floor(at) + 0.0009`, unconditionally (no deduplication, no assertion). -/
def call_me_later (s : BatsimState) (at0 : ℚ) : BatsimState :=
  _append_request s ⟨(current_time s : ℚ), .callMeLater ((⌊at0⌋ : ℚ) + 9 / 10000)⟩

/-- `kill_job`: queue a `KillJobRequest` at `current_time`. -/
def kill_job (s : BatsimState) (job_ids : List String) : BatsimState :=
  _append_request s ⟨(current_time s : ℚ), .killJob job_ids⟩

/-- `_close_simulator`: kill the subprocess handle if still alive. -/
def _close_simulator (s : BatsimState) : BatsimState :=
  { s with simulatorUp := false }

/-- `finish`: close the subprocess, then dispatch a `SimulationEnds` event
at `current_time`. Dispatching it runs the `on_simulation_ends` callback
registered in `__init__`, which clears the request buffer and closes the
network channel. -/
def finish (s : BatsimState) : BatsimState :=
  let s1 := _close_simulator s
  { s1 with
    dispatched := s1.dispatched ++ [⟨(current_time s1 : ℚ), .simulationEnds⟩]
    requests := [] }

/-- The scan of `set_resources_pstate` over the sorted request buffer:
update the first request whose timestamp is `current_time` and whose type
is `SET_RESOURCE_STATE`, returning `none` when no such request exists. -/
def mergeScan (ct : ℚ) (resources : List ℕ) :
    List Request → Option (List Request)
  | [] => none
  | r :: rs =>
    if r.timestamp = ct ∧ r.type = .SET_RESOURCE_STATE then
      some (r.update_resources resources :: rs)
    else (mergeScan ct resources rs).map (r :: ·)

/-- Accumulator of the transition loop of the protocol backend's
`set_resources_pstate`: the `transitions` defaultdict, the `nodes_visited`
set and the leaked loop variable `r` (only bound inside the
`if trans_ps:` branch here). -/
structure TransAcc where
  transitions : List (ℕ × List ℕ)
  visited : List ℕ
  lastRes : Option Resource
deriving Repr

/-- One iteration of the transition loop of the protocol backend's
`set_resources_pstate`: like the self-contained planner but recording only
the transition-state groups (the final state change is computed by the
external process). -/
def processTransition (p : Platform) (pstate : ℕ) (acc : TransAcc)
    (resource : Resource) : Option TransAcc :=
  if acc.visited.contains resource.parent_id then some acc
  else do
    let n ← get_node p resource.parent_id
    let next_ps ← n.power_states.find? (fun ps => ps.id == pstate)
    let trans_ps : Option PowerState ←
      if next_ps.type = .sleep then
        (n.power_states.find? (fun ps => ps.type == .switching_off)).map some
      else if next_ps.type = .computation ∧ n.is_on = false then
        (n.power_states.find? (fun ps => ps.type == .switching_on)).map some
      else some none
    let ids := n.resources.map Resource.id
    let lastRes :=
      match trans_ps with
      | none => acc.lastRes
      | some _ =>
        match n.resources.getLast? with
        | some x => some x
        | none => acc.lastRes
    let r ← lastRes
    some { transitions :=
             match trans_ps with
             | none => acc.transitions
             | some tp => dAppend tp.id ids acc.transitions
           visited := acc.visited ++ [r.parent_id]
           lastRes := lastRes }

/-- `set_resources_pstate`: merge into the first queued
`SET_RESOURCE_STATE` request at `current_time` when one exists, otherwise
append a new request; then run the transition loop and immediately
dispatch one power-state-changed event per transition-state group. -/
def set_resources_pstate (s : BatsimState) (resources : List ℕ)
    (pstate : ℕ) : Option BatsimState :=
  let s1 :=
    match mergeScan (current_time s : ℚ) resources s.requests with
    | some rs => { s with requests := rs }
    | none =>
        _append_request s ⟨(current_time s : ℚ), .setResourceState resources pstate⟩
  ((get_resources s.platform resources).foldlM
      (processTransition s.platform pstate) ⟨[], [], none⟩).map fun acc =>
    { s1 with
      dispatched := s1.dispatched ++ acc.transitions.map
        (fun pr => ⟨(current_time s : ℚ), .resourcePowerStateChanged pr.2 pr.1⟩) }

/-- `_send_requests`: send one message carrying every queued request, then
clear the buffer. -/
def _send_requests (s : BatsimState) : Message × BatsimState :=
  (⟨current_time s, s.requests⟩, { s with requests := [] })

/-- `proceed_simulation` = `_send_and_recv`: asserts the subprocess is up,
sends the batch, then receives a reply (modelled as input: the reply's
`now` and events), sets the clock from the reply and dispatches its
events. Returns the sent message to state what was transmitted. -/
def proceed_simulation (s : BatsimState) (reply_now : ℚ)
    (reply_events : List SimEvent) : Option (Message × BatsimState) :=
  if s.simulatorUp = false then none
  else
    let ms := _send_requests s
    some (ms.1, { ms.2 with
      curTime := reply_now
      dispatched := ms.2.dispatched ++ reply_events })

end BatsimSimulatorHandler

/-- A node with two resources of speed 2; power states:
0 = computation (speed 2), 1 = sleep, 2 = switching-off (speed 1/3),
3 = switching-on (speed 1/2). -/
def demoNode : Node :=
  ⟨0, true,
   [⟨0, .computation, 2⟩, ⟨1, .sleep, 0⟩, ⟨2, .switching_off, 1/3⟩,
    ⟨3, .switching_on, 1/2⟩, ⟨4, .sleep, 0⟩],
   [⟨0, 0, 2⟩, ⟨1, 0, 2⟩]⟩

/-- A one-node platform. -/
def demoPlatform : Platform := [demoNode]

def demoProfile : WorkloadProfile := ⟨.parallel_homogeneous, 100⟩

def demoJob : Job := ⟨"j", "p", 1, 1000, ""⟩

def demoJob40 : Job := ⟨"k", "p", 1, 40, ""⟩

/-- A running self-contained handler with one registered profile and two
pending jobs (walltimes 1000 and 40). -/
def demoState : GridState :=
  { curTime := 0
    events := []
    profiles := [("p", demoProfile)]
    submitter_ended := true
    is_running := true
    jobs := [("j", demoJob), ("k", demoJob40)]
    platform := demoPlatform
    dispatched := [] }

/-- A running protocol handler with an empty request buffer. -/
def demoBatsim : BatsimState :=
  { curTime := 0
    requests := []
    simulatorUp := true
    platform := demoPlatform
    dispatched := [] }

/-- Number of `SimulationEnds` events in a dispatch log. -/
def countSimEnds (l : List SimEvent) : ℕ :=
  l.countP (fun e => e.type == .SIMULATION_ENDS)

/-- Number of requested-call events at integer timestamp `t`. -/
def countReqCall (t : ℤ) (l : List SimEvent) : ℕ :=
  l.countP (fun e => e.type == .REQUESTED_CALL && e.timestamp == (t : ℚ))

namespace GridSimulatorHandler

/-- The state after `execute_job demoState "j" [0]`. -/
def demoAfterExec : GridState :=
  { demoState with
    jobs := [("k", demoJob40)]
    events := [⟨0, .jobStarted "j" [0]⟩,
               ⟨50, .jobCompleted "j" .COMPLETED_SUCCESSFULLY "0" [0]⟩] }

/-- The state after the first `proceed_simulation`: the two time-0 events
are dispatched. -/
def demoAfterP1 : GridState :=
  { demoAfterExec with
    events := [⟨50, .jobCompleted "j" .COMPLETED_SUCCESSFULLY "0" [0]⟩]
    dispatched := [⟨0, .jobStarted "j" [0]⟩] }

/-- The state after the second `proceed_simulation`: the completion event
at 50 is dispatched. -/
def demoAfterP2 : GridState :=
  { demoAfterP1 with
    curTime := 50
    events := []
    dispatched := [⟨0, .jobStarted "j" [0]⟩,
                   ⟨50, .jobCompleted "j" .COMPLETED_SUCCESSFULLY "0" [0]⟩] }

/-- A job with fractional walltime 3/2. -/
def demoJobF : Job := ⟨"f", "p", 1, 3 / 2, ""⟩

def demoStateF : GridState := { demoState with jobs := [("f", demoJobF)] }

/-- After executing "f": its completion is scheduled at the fractional
time `min(50, 3/2) = 3/2`. -/
def demoFAfterExec : GridState :=
  { demoStateF with
    jobs := []
    events := [⟨0, .jobStarted "f" [0]⟩,
               ⟨3 / 2, .jobCompleted "f" .COMPLETED_WALLTIME_REACHED "0" [0]⟩] }

def demoFAfterP1 : GridState :=
  { demoFAfterExec with
    events := [⟨3 / 2, .jobCompleted "f" .COMPLETED_WALLTIME_REACHED "0" [0]⟩]
    dispatched := [⟨0, .jobStarted "f" [0]⟩] }

/-- After the second advance the clock moved to 3/2 but `current_time`
is its floor 1, so the dispatch loop matches nothing: the completion
event stays pending and nothing is dispatched. -/
def demoFAfterP2 : GridState := { demoFAfterP1 with curTime := 3 / 2 }

end GridSimulatorHandler

namespace BatsimSimulatorHandler

/-- Buffer after one sleep request for resource 0 on the demo protocol
handler: one queued request and the locally dispatched switching-off
event. -/
def demoB1 : BatsimState :=
  { demoBatsim with
    requests := [⟨0, .setResourceState [0] 1⟩]
    dispatched := [⟨0, .resourcePowerStateChanged [0, 1] 2⟩] }

/-- Buffer after a second sleep request at the same timestamp for
resource 1: the two requests are merged (resource set unioned, first
pstate kept) and a second switching-off event is dispatched. -/
def demoB2 : BatsimState :=
  { demoBatsim with
    requests := [⟨0, .setResourceState [0, 1] 1⟩]
    dispatched := [⟨0, .resourcePowerStateChanged [0, 1] 2⟩,
                   ⟨0, .resourcePowerStateChanged [0, 1] 2⟩] }

/-- Buffer after a second sleep request targeting the other sleep state
(pstate 4): the merged request still carries pstate 1. -/
def demoB2b : BatsimState :=
  { demoBatsim with
    requests := [⟨0, .setResourceState [0, 1] 1⟩]
    dispatched := [⟨0, .resourcePowerStateChanged [0, 1] 2⟩,
                   ⟨0, .resourcePowerStateChanged [0, 1] 2⟩] }

end BatsimSimulatorHandler

namespace GridSimulatorHandler

/-- The driver-visible operations of a running `GridSimulatorHandler`
(`start` excluded: a run is a single start/finish pair). -/
inductive GridOp
  | registerProfile (profile_name : String) (profile : WorkloadProfile)
  | registerJob (id profile : String) (res : ℕ) (walltime : ℚ) (user : String)
  | executeJob (job_id : String) (alloc : List ℕ)
  | rejectJob (job_id : String)
  | killJob (job_ids : List String)
  | callMeLater (at0 : ℚ)
  | setResourcesPstate (resources : List ℕ) (pstate : ℕ)
  | notifyOp (nt : NotifyType)
  | proceed
  | finishOp

/-- One driver call applied to the handler state. -/
def stepOp (s : GridState) : GridOp → Option GridState
  | .registerProfile name p => some (register_profile s name p)
  | .registerJob id profile res walltime user =>
      some (register_job s id profile res walltime user)
  | .executeJob job_id alloc => execute_job s job_id alloc
  | .rejectJob job_id => reject_job s job_id
  | .killJob job_ids => kill_job s job_ids
  | .callMeLater at0 => call_me_later s at0
  | .setResourcesPstate resources pstate => set_resources_pstate s resources pstate
  | .notifyOp nt => some (notify s nt)
  | .proceed => proceed_simulation s
  | .finishOp => some (finish s)

/-- Well-formed driver inputs: registered profiles have nonnegative work
and registered jobs nonnegative walltime. -/
def wfOp : GridOp → Prop
  | .registerProfile _ p => 0 ≤ p.cpu
  | .registerJob _ _ _ walltime _ => 0 ≤ walltime
  | _ => True

/-- Well-formed platform: no negative speeds. -/
def platformWF (p : Platform) : Prop :=
  ∀ n ∈ p, (∀ r ∈ n.resources, 0 ≤ r.speed) ∧ ∀ ps ∈ n.power_states, 0 ≤ ps.speed

/-- The state right after `start` on a fresh handler: the
`SimulationBegins` event has been dispatched. -/
def startState (p : Platform) : GridState :=
  { curTime := 0
    events := []
    profiles := []
    submitter_ended := false
    is_running := true
    jobs := []
    platform := p
    dispatched := [⟨0, .simulationBegins⟩] }

/-- The run invariant of the self-contained backend. -/
structure Inv (s : GridState) : Prop where
  sorted : s.events.Sorted (fun a b => a.timestamp ≤ b.timestamp)
  lb : ∀ e ∈ s.events, (current_time s : ℚ) ≤ e.timestamp
  profs : ∀ pr ∈ s.profiles, 0 ≤ pr.2.cpu
  jobsWF : ∀ pr ∈ s.jobs, 0 ≤ pr.2.walltime
  plat : platformWF s.platform
  logmono : s.dispatched.Pairwise (fun a b => ⌊a.timestamp⌋ ≤ ⌊b.timestamp⌋)
  logub : ∀ e ∈ s.dispatched, ⌊e.timestamp⌋ ≤ current_time s

/-- States reachable in one run of the self-contained backend under
well-formed driver inputs. -/
inductive ReachableRun : GridState → Prop
  | start (p : Platform) (hp : platformWF p) : ReachableRun (startState p)
  | step {s s' : GridState} (op : GridOp) : ReachableRun s → wfOp op →
      stepOp s op = some s' → ReachableRun s'

/-- Run states of the counterexample for C8's claim that `current_time`
always equals the floor of the most recently processed event's timestamp:
the job "f" has walltime 3/2, so its completion event sits at fractional
time 3/2. -/
def c8s1 : GridState :=
  { startState demoPlatform with profiles := [("p", demoProfile)] }

def c8s2 : GridState :=
  { c8s1 with
    jobs := [("f", demoJobF)]
    events := [⟨0, .jobSubmitted demoJobF⟩] }

def c8s3 : GridState :=
  { c8s2 with
    jobs := []
    events := [⟨0, .jobSubmitted demoJobF⟩, ⟨0, .jobStarted "f" [0]⟩,
               ⟨3 / 2, .jobCompleted "f" .COMPLETED_WALLTIME_REACHED "0" [0]⟩] }

def c8s4 : GridState :=
  { c8s3 with
    events := [⟨3 / 2, .jobCompleted "f" .COMPLETED_WALLTIME_REACHED "0" [0]⟩]
    dispatched := [⟨0, .simulationBegins⟩, ⟨0, .jobSubmitted demoJobF⟩,
                   ⟨0, .jobStarted "f" [0]⟩] }

def c8s5 : GridState := { c8s4 with curTime := 3 / 2 }

/-- The floor of the most recently processed (dispatched) event's
timestamp. -/
def lastDispatchedFloor (s : GridState) : Option ℤ :=
  s.dispatched.getLast?.map (fun e => ⌊e.timestamp⌋)

end GridSimulatorHandler

theorem pyInt_of_nonneg {q : ℚ} (h : 0 ≤ q) : pyInt q = ⌊q⌋ := by
  simp [pyInt, h]

theorem pyInt_nonneg {q : ℚ} (h : 0 ≤ q) : 0 ≤ pyInt q := by
  rw [pyInt_of_nonneg h]; exact Int.floor_nonneg.mpr h

theorem sortedInsert_perm {α : Type} (key : α → ℚ) (e : α) (l : List α) :
    (sortedInsert key e l).Perm (e :: l) := by
  induction l with
  | nil => simp [sortedInsert]
  | cons x xs ih =>
    by_cases h : key e < key x
    · simp [sortedInsert, h]
    · simp only [sortedInsert, if_neg h]
      exact ((ih.cons x).trans (List.Perm.swap e x xs))

theorem sortedInsert_mem {α : Type} (key : α → ℚ) (e : α) (l : List α) (x : α) :
    x ∈ sortedInsert key e l ↔ x = e ∨ x ∈ l := by
  rw [(sortedInsert_perm key e l).mem_iff]
  simp

theorem sortedInsert_countP {α : Type} (key : α → ℚ) (e : α) (l : List α)
    (p : α → Bool) :
    (sortedInsert key e l).countP p =
      l.countP p + (if p e then 1 else 0) := by
  rw [(sortedInsert_perm key e l).countP_eq]
  by_cases h : p e <;> simp [h, List.countP_cons, Nat.add_comm]

theorem sortedInsert_sorted {α : Type} (key : α → ℚ) (e : α) {l : List α}
    (h : l.Sorted (fun a b => key a ≤ key b)) :
    (sortedInsert key e l).Sorted (fun a b => key a ≤ key b) := by
  induction l with
  | nil => simp [sortedInsert]
  | cons x xs ih =>
    rw [List.sorted_cons] at h
    by_cases hlt : key e < key x
    · rw [sortedInsert, if_pos hlt, List.sorted_cons]
      refine ⟨?_, List.sorted_cons.mpr h⟩
      intro b hb
      rcases List.mem_cons.mp hb with rfl | hb
      · exact hlt.le
      · exact hlt.le.trans (h.1 b hb)
    · rw [sortedInsert, if_neg hlt, List.sorted_cons]
      refine ⟨?_, ih h.2⟩
      intro b hb
      rcases (sortedInsert_mem key e xs b).mp hb with rfl | hb
      · exact le_of_not_lt hlt
      · exact h.1 b hb

theorem sortedInsert_split {α : Type} (key : α → ℚ) (e : α) (l : List α) :
    ∃ l1 l2, sortedInsert key e l = l1 ++ e :: l2 ∧ l = l1 ++ l2 := by
  induction l with
  | nil => exact ⟨[], [], rfl, rfl⟩
  | cons x xs ih =>
    by_cases h : key e < key x
    · exact ⟨[], x :: xs, by simp [sortedInsert, h], rfl⟩
    · obtain ⟨l1, l2, h1, h2⟩ := ih
      exact ⟨x :: l1, l2, by simp [sortedInsert, h, h1], by simp [h2]⟩

/-- In a sorted list headed by an element of key `c`, the prefix of key `c`
is all of the elements of key `c`. -/
theorem sorted_takeWhile_eq_filter {α : Type} (key : α → ℚ) {l : List α}
    (h : l.Sorted (fun a b => key a ≤ key b)) (c : ℚ)
    (hc : ∀ x ∈ l, c ≤ key x) :
    l.takeWhile (fun x => key x == c) = l.filter (fun x => key x == c) := by
  induction l with
  | nil => rfl
  | cons x xs ih =>
    rw [List.sorted_cons] at h
    by_cases hx : key x = c
    · have hbx : (key x == c) = true := beq_iff_eq.mpr hx
      simp only [List.takeWhile_cons, List.filter_cons, hbx, if_true, cond_true]
      rw [ih h.2 (fun y hy => hc y (List.mem_cons_of_mem x hy))]
    · have hbx : (key x == c) = false := by simp [hx]
      have hgt : c < key x :=
        lt_of_le_of_ne (hc x (List.mem_cons_self x xs)) (Ne.symm hx)
      have hxs : xs.filter (fun y => key y == c) = [] := by
        rw [List.filter_eq_nil_iff]
        intro y hy
        have hy2 : c < key y := hgt.trans_le (h.1 y hy)
        simp only [beq_iff_eq]
        exact (ne_of_lt hy2).symm
      simp [List.takeWhile_cons, List.filter_cons, hbx, hxs]

/-- Membership in the `timestamp ≤ c` prefix of a sorted event list. -/
theorem mem_takeWhile_le_of_sorted {l : List SimEvent}
    (hs : l.Sorted (fun a b => a.timestamp ≤ b.timestamp)) (c : ℚ)
    {e : SimEvent} (he : e ∈ l) (hle : e.timestamp ≤ c) :
    e ∈ l.takeWhile (fun x => decide (x.timestamp ≤ c)) := by
  induction l with
  | nil => cases he
  | cons x xs ih =>
    rw [List.sorted_cons] at hs
    rcases List.mem_cons.mp he with rfl | he
    · simp [List.takeWhile_cons, hle]
    · have hx : x.timestamp ≤ c := (hs.1 e he).trans hle
      simp only [List.takeWhile_cons, decide_eq_true hx]
      exact List.mem_cons_of_mem x (ih hs.2 he)

namespace GridSimulatorHandler

/-- Evaluation of `execute_job` under the hypotheses that the job, profile
and allocated resources resolve, the minimum allocated speed is positive,
the profile work is nonnegative and the job resource count is positive. -/
theorem execute_job_eval
    (s : GridState) (job_id : String) (alloc : List ℕ)
    (job : Job) (p : WorkloadProfile) (ms : ℚ)
    (hjob : s.jobs.lookup job_id = some job)
    (hms : minSpeed (get_resources s.platform alloc) = some ms)
    (hprof : s.profiles.lookup job.profile = some p)
    (hms0 : 0 < ms) (hcpu : 0 ≤ p.cpu) (hres : 0 < job.res) :
    (p.type = .parallel_homogeneous →
      execute_job s job_id alloc = some { s with
        jobs := dictRemove job_id s.jobs
        events := sortedInsert SimEvent.timestamp
          ⟨(current_time s : ℚ) + min ((⌊p.cpu / ms⌋ : ℤ) : ℚ) job.walltime,
           .jobCompleted job_id
             (if job.walltime > ((⌊p.cpu / ms⌋ : ℤ) : ℚ) then .COMPLETED_SUCCESSFULLY
              else .COMPLETED_WALLTIME_REACHED) "0" alloc⟩
          (sortedInsert SimEvent.timestamp
            ⟨(current_time s : ℚ), .jobStarted job_id alloc⟩ s.events) }) ∧
    (p.type = .parallel_homogeneous_total →
      execute_job s job_id alloc = some { s with
        jobs := dictRemove job_id s.jobs
        events := sortedInsert SimEvent.timestamp
          ⟨(current_time s : ℚ) + min ((⌊p.cpu / (job.res : ℚ) / ms⌋ : ℤ) : ℚ) job.walltime,
           .jobCompleted job_id
             (if job.walltime > ((⌊p.cpu / (job.res : ℚ) / ms⌋ : ℤ) : ℚ) then
                .COMPLETED_SUCCESSFULLY
              else .COMPLETED_WALLTIME_REACHED) "0" alloc⟩
          (sortedInsert SimEvent.timestamp
            ⟨(current_time s : ℚ), .jobStarted job_id alloc⟩ s.events) }) := by
  constructor
  · intro hty
    have hdiv : (0 : ℚ) ≤ p.cpu / ms := div_nonneg hcpu hms0.le
    simp [execute_job, hjob, hms, hprof, hty, hms0.ne', pyInt_of_nonneg hdiv]
  · intro hty
    have hdiv : (0 : ℚ) ≤ p.cpu / (job.res : ℚ) / ms :=
      div_nonneg (div_nonneg hcpu (by positivity)) hms0.le
    simp [execute_job, hjob, hms, hprof, hty, hms0.ne', hres.ne',
      pyInt_of_nonneg hdiv]

/-- C1: on the self-contained backend, `execute_job` computes
`runtime = floor(cpu_work / minSpeed)` for `parallel_homogeneous` profiles
and `runtime = floor((cpu_work / job.resource_count) / minSpeed)` for
`parallel_homogeneous_total` profiles, and schedules a `JobCompleted`
event at `current_time + min(runtime, walltime)` whose outcome is
`COMPLETED_SUCCESSFULLY` when `walltime > runtime` and
`COMPLETED_WALLTIME_REACHED` otherwise. -/
theorem C1_execute_job_runtime_outcome
    (s : GridState) (job_id : String) (alloc : List ℕ)
    (job : Job) (p : WorkloadProfile) (ms : ℚ)
    (hjob : s.jobs.lookup job_id = some job)
    (hms : minSpeed (get_resources s.platform alloc) = some ms)
    (hprof : s.profiles.lookup job.profile = some p)
    (hms0 : 0 < ms) (hcpu : 0 ≤ p.cpu) (hres : 0 < job.res) :
    (p.type = .parallel_homogeneous →
      execute_job s job_id alloc = some { s with
        jobs := dictRemove job_id s.jobs
        events := sortedInsert SimEvent.timestamp
          ⟨(current_time s : ℚ) + min ((⌊p.cpu / ms⌋ : ℤ) : ℚ) job.walltime,
           .jobCompleted job_id
             (if job.walltime > ((⌊p.cpu / ms⌋ : ℤ) : ℚ) then .COMPLETED_SUCCESSFULLY
              else .COMPLETED_WALLTIME_REACHED) "0" alloc⟩
          (sortedInsert SimEvent.timestamp
            ⟨(current_time s : ℚ), .jobStarted job_id alloc⟩ s.events) }) ∧
    (p.type = .parallel_homogeneous_total →
      execute_job s job_id alloc = some { s with
        jobs := dictRemove job_id s.jobs
        events := sortedInsert SimEvent.timestamp
          ⟨(current_time s : ℚ) + min ((⌊p.cpu / (job.res : ℚ) / ms⌋ : ℤ) : ℚ) job.walltime,
           .jobCompleted job_id
             (if job.walltime > ((⌊p.cpu / (job.res : ℚ) / ms⌋ : ℤ) : ℚ) then
                .COMPLETED_SUCCESSFULLY
              else .COMPLETED_WALLTIME_REACHED) "0" alloc⟩
          (sortedInsert SimEvent.timestamp
            ⟨(current_time s : ℚ), .jobStarted job_id alloc⟩ s.events) }) :=
  execute_job_eval s job_id alloc job p ms hjob hms hprof hms0 hcpu hres

/-- Witness for C1: profile `cpu_work = 100`, allocated resource speed 2,
walltime 1000 gives completion at 50 with success; walltime 40 gives
completion at 40 with walltime reached. -/
theorem C1_execute_job_runtime_outcome_witness :
    execute_job demoState "j" [0] = some { demoState with
      jobs := [("k", demoJob40)]
      events := [⟨0, .jobStarted "j" [0]⟩,
                 ⟨50, .jobCompleted "j" .COMPLETED_SUCCESSFULLY "0" [0]⟩] } ∧
    execute_job demoState "k" [0] = some { demoState with
      jobs := [("j", demoJob)]
      events := [⟨0, .jobStarted "k" [0]⟩,
                 ⟨40, .jobCompleted "k" .COMPLETED_WALLTIME_REACHED "0" [0]⟩] } := by
  constructor
  · refine ((C1_execute_job_runtime_outcome demoState "j" [0] demoJob demoProfile 2
      rfl rfl rfl (by norm_num) (by norm_num [demoProfile]) (by norm_num [demoJob])).1
      rfl).trans ?_
    norm_num [demoState, demoProfile, demoJob, demoJob40, current_time,
      sortedInsert, dictRemove, Rat.floor_def, min_def]
    decide
  · refine ((C1_execute_job_runtime_outcome demoState "k" [0] demoJob40 demoProfile 2
      rfl rfl rfl (by norm_num) (by norm_num [demoProfile]) (by norm_num [demoJob40])).1
      rfl).trans ?_
    norm_num [demoState, demoProfile, demoJob, demoJob40, current_time,
      sortedInsert, dictRemove, Rat.floor_def, min_def]
    decide

/-- C7 counterexample: on the self-contained backend, `reject_job` only
deletes the job from the pending table — the resulting state has the same
(empty) event queue and the same (empty) dispatch log as before, so no
`JobRejected` event is emitted, contrary to the claim. -/
theorem C7_reject_job_counterexample :
    reject_job demoState "j" = some { demoState with jobs := [("k", demoJob40)] } ∧
    ({ demoState with jobs := [("k", demoJob40)] } : GridState).events = [] ∧
    ({ demoState with jobs := [("k", demoJob40)] } : GridState).dispatched = [] :=
  ⟨rfl, rfl, rfl⟩

/-- C7 (amended): `reject_job` removes the job from the pending set on the
self-contained backend, changing nothing else (in particular emitting no
event); the protocol backend queues one `JobRejected` request for the id
and dispatches nothing. -/
theorem C7_reject_job_amended (s : GridState) (b : BatsimState) (job_id : String)
    (h : s.jobs.any (fun p => p.1 == job_id) = true) :
    reject_job s job_id = some { s with jobs := dictRemove job_id s.jobs } ∧
    (BatsimSimulatorHandler.reject_job b job_id).requests.countP
        (fun r => r == ⟨(BatsimSimulatorHandler.current_time b : ℚ), .rejectJob job_id⟩) =
      b.requests.countP
        (fun r => r == ⟨(BatsimSimulatorHandler.current_time b : ℚ), .rejectJob job_id⟩) + 1 ∧
    (BatsimSimulatorHandler.reject_job b job_id).dispatched = b.dispatched := by
  refine ⟨by simp [reject_job, h], ?_, rfl⟩
  simp [BatsimSimulatorHandler.reject_job, BatsimSimulatorHandler._append_request,
    sortedInsert_countP]

/-- Witness for the amended C7 at the demo states. -/
theorem C7_reject_job_amended_witness :
    demoState.jobs.any (fun p => p.1 == "j") = true ∧
    (reject_job demoState "j" = some { demoState with jobs := dictRemove "j" demoState.jobs } ∧
     (BatsimSimulatorHandler.reject_job demoBatsim "j").requests.countP
        (fun r => r == ⟨(BatsimSimulatorHandler.current_time demoBatsim : ℚ), .rejectJob "j"⟩) =
       demoBatsim.requests.countP
        (fun r => r == ⟨(BatsimSimulatorHandler.current_time demoBatsim : ℚ), .rejectJob "j"⟩) + 1 ∧
     (BatsimSimulatorHandler.reject_job demoBatsim "j").dispatched = demoBatsim.dispatched) :=
  ⟨by decide, C7_reject_job_amended demoState demoBatsim "j" (by decide)⟩

/-- C6 counterexample: on the protocol backend, each `finish` call
dispatches a fresh `SimulationEnds` event — two calls in succession yield
two events, contrary to the claimed idempotence. -/
theorem C6_finish_counterexample :
    (BatsimSimulatorHandler.finish (BatsimSimulatorHandler.finish demoBatsim)).dispatched =
      [⟨0, .simulationEnds⟩, ⟨0, .simulationEnds⟩] := by
  simp [BatsimSimulatorHandler.finish, BatsimSimulatorHandler._close_simulator,
    BatsimSimulatorHandler.current_time, demoBatsim]

/-- C6 (amended): on the self-contained backend `finish` is idempotent and
a first call on a running handler dispatches exactly one `SimulationEnds`
event; on the protocol backend every `finish` call dispatches one more
`SimulationEnds` event (two calls give two events), and no call raises. -/
theorem C6_finish_amended (s : GridState) (b : BatsimState)
    (hrun : s.is_running = true) :
    (finish (finish s) = finish s ∧
     countSimEnds (finish s).dispatched = countSimEnds s.dispatched + 1) ∧
    (countSimEnds (BatsimSimulatorHandler.finish b).dispatched =
       countSimEnds b.dispatched + 1 ∧
     countSimEnds (BatsimSimulatorHandler.finish
        (BatsimSimulatorHandler.finish b)).dispatched =
       countSimEnds b.dispatched + 2) := by
  have hfin : finish s = { s with
      is_running := false
      submitter_ended := true
      events := []
      profiles := []
      jobs := []
      dispatched := s.dispatched ++ [⟨(current_time s : ℚ), .simulationEnds⟩] } := by
    simp [finish, hrun, _dispatch_events, sortedInsert, current_time]
  refine ⟨⟨?_, ?_⟩, ?_, ?_⟩
  · rw [hfin, finish]
    simp
  · rw [hfin]
    simp [countSimEnds, List.countP_append, SimEvent.type]
  · simp [BatsimSimulatorHandler.finish, BatsimSimulatorHandler._close_simulator,
      countSimEnds, List.countP_append, SimEvent.type]
  · simp [BatsimSimulatorHandler.finish, BatsimSimulatorHandler._close_simulator,
      countSimEnds, List.countP_append, SimEvent.type]

/-- Witness for the amended C6 at the demo states. -/
theorem C6_finish_amended_witness :
    demoState.is_running = true ∧
    ((finish (finish demoState) = finish demoState ∧
      countSimEnds (finish demoState).dispatched = countSimEnds demoState.dispatched + 1) ∧
     (countSimEnds (BatsimSimulatorHandler.finish demoBatsim).dispatched =
        countSimEnds demoBatsim.dispatched + 1 ∧
      countSimEnds (BatsimSimulatorHandler.finish
         (BatsimSimulatorHandler.finish demoBatsim)).dispatched =
        countSimEnds demoBatsim.dispatched + 2)) :=
  ⟨rfl, C6_finish_amended demoState demoBatsim rfl⟩

/-- C5 counterexample: on the protocol backend, a second `call_me_later`
for the same timestamp is not a no-op — it queues a duplicate request —
and a request in the past is accepted without a precondition violation. -/
theorem C5_call_me_later_counterexample :
    (BatsimSimulatorHandler.call_me_later
        (BatsimSimulatorHandler.call_me_later demoBatsim 5) 5).requests =
      [⟨0, .callMeLater (5 + 9 / 10000)⟩, ⟨0, .callMeLater (5 + 9 / 10000)⟩] ∧
    (BatsimSimulatorHandler.call_me_later demoBatsim (-1)).requests =
      [⟨0, .callMeLater (-1 + 9 / 10000)⟩] := by
  constructor <;>
  · simp [BatsimSimulatorHandler.call_me_later, BatsimSimulatorHandler._append_request,
      BatsimSimulatorHandler.current_time, demoBatsim, sortedInsert]
    try norm_num

/-- C5 (amended): on the self-contained backend, `call_me_later` ensures
exactly one requested-call event at the floored timestamp (a second call
before it fires is a no-op) and a past timestamp is an assertion failure;
the protocol backend instead appends a `CallMeLater` request
unconditionally — no deduplication and no precondition check. -/
theorem C5_call_me_later_amended (s : GridState) (b : BatsimState) (at0 : ℚ)
    (hs : s.events.Sorted (fun a b => a.timestamp ≤ b.timestamp))
    (hcount : countReqCall ⌊at0⌋ s.events ≤ 1) :
    (⌊at0⌋ < current_time s → call_me_later s at0 = none) ∧
    (current_time s ≤ ⌊at0⌋ →
      ∃ s', call_me_later s at0 = some s' ∧
        countReqCall ⌊at0⌋ s'.events = 1 ∧
        call_me_later s' at0 = some s') ∧
    (BatsimSimulatorHandler.call_me_later b at0).requests.countP
        (fun r => r == ⟨(BatsimSimulatorHandler.current_time b : ℚ),
           .callMeLater ((⌊at0⌋ : ℚ) + 9 / 10000)⟩) =
      b.requests.countP
        (fun r => r == ⟨(BatsimSimulatorHandler.current_time b : ℚ),
           .callMeLater ((⌊at0⌋ : ℚ) + 9 / 10000)⟩) + 1 := by
  refine ⟨fun h => by simp [call_me_later, h], fun h => ?_,
    by simp [BatsimSimulatorHandler.call_me_later,
      BatsimSimulatorHandler._append_request, sortedInsert_countP]⟩
  have hnl : ¬(⌊at0⌋ < current_time s) := not_lt.mpr h
  by_cases hex : ∃ e ∈ s.events,
      (e.type == EventType.REQUESTED_CALL && e.timestamp == ((⌊at0⌋ : ℤ) : ℚ)) = true
  · obtain ⟨e, he, hpe⟩ := hex
    have hts : e.timestamp = ((⌊at0⌋ : ℤ) : ℚ) :=
      eq_of_beq ((Bool.and_eq_true _ _).mp hpe).2
    have hfront : (s.events.takeWhile
        (fun x => decide (x.timestamp ≤ ((⌊at0⌋ : ℤ) : ℚ)))).any
        (fun e => e.type == EventType.REQUESTED_CALL &&
          e.timestamp == ((⌊at0⌋ : ℤ) : ℚ)) = true := by
      rw [List.any_eq_true]
      exact ⟨e, mem_takeWhile_le_of_sorted hs _ he (le_of_eq hts), hpe⟩
    have heq : call_me_later s at0 = some s := by
      simp only [call_me_later, if_neg hnl, hfront, if_true]
    refine ⟨s, heq, ?_, heq⟩
    have hpos : 0 < countReqCall ⌊at0⌋ s.events := by
      rw [countReqCall, List.countP_pos_iff]
      exact ⟨e, he, hpe⟩
    omega
  · have hnone : ∀ e ∈ s.events,
        ¬(e.type == EventType.REQUESTED_CALL &&
          e.timestamp == ((⌊at0⌋ : ℤ) : ℚ)) = true := by
      intro e he hpe
      exact hex ⟨e, he, hpe⟩
    have hfront : (s.events.takeWhile
        (fun x => decide (x.timestamp ≤ ((⌊at0⌋ : ℤ) : ℚ)))).any
        (fun e => e.type == EventType.REQUESTED_CALL &&
          e.timestamp == ((⌊at0⌋ : ℤ) : ℚ)) = false := by
      rw [List.any_eq_false]
      intro e he
      exact hnone e ((List.takeWhile_sublist _).subset he)
    have heq : call_me_later s at0 = some { s with
        events := sortedInsert SimEvent.timestamp
          ⟨((⌊at0⌋ : ℤ) : ℚ), .requestedCall⟩ s.events } := by
      simp only [call_me_later, if_neg hnl, hfront, Bool.false_eq_true, if_false]
    refine ⟨_, heq, ?_, ?_⟩
    · have hz : List.countP (fun e => e.type == EventType.REQUESTED_CALL &&
          e.timestamp == ((⌊at0⌋ : ℤ) : ℚ)) s.events = 0 :=
        List.countP_eq_zero.mpr hnone
      rw [countReqCall, sortedInsert_countP, hz]
      norm_num [SimEvent.type]
    · have hs' : (sortedInsert SimEvent.timestamp
          ⟨((⌊at0⌋ : ℤ) : ℚ), .requestedCall⟩ s.events).Sorted
          (fun a b => a.timestamp ≤ b.timestamp) := sortedInsert_sorted _ _ hs
      have hmem : (⟨((⌊at0⌋ : ℤ) : ℚ), .requestedCall⟩ : SimEvent) ∈
          sortedInsert SimEvent.timestamp
            ⟨((⌊at0⌋ : ℤ) : ℚ), .requestedCall⟩ s.events :=
        (sortedInsert_mem _ _ _ _).mpr (Or.inl rfl)
      have hfront2 : ((sortedInsert SimEvent.timestamp
          ⟨((⌊at0⌋ : ℤ) : ℚ), .requestedCall⟩ s.events).takeWhile
          (fun x => decide (x.timestamp ≤ ((⌊at0⌋ : ℤ) : ℚ)))).any
          (fun e => e.type == EventType.REQUESTED_CALL &&
            e.timestamp == ((⌊at0⌋ : ℤ) : ℚ)) = true := by
        rw [List.any_eq_true]
        exact ⟨_, mem_takeWhile_le_of_sorted hs' _ hmem (le_refl _),
          by simp [SimEvent.type]⟩
      simp only [call_me_later, current_time, if_neg hnl, hfront2, if_true]
      simp only [current_time] at hnl
      simp [if_neg hnl]

/-- Witness for the amended C5 at the demo states with `at = 5`. -/
theorem C5_call_me_later_amended_witness :
    demoState.events.Sorted (fun a b => a.timestamp ≤ b.timestamp) ∧
    countReqCall ⌊(5 : ℚ)⌋ demoState.events ≤ 1 ∧
    ((⌊(5 : ℚ)⌋ < current_time demoState → call_me_later demoState 5 = none) ∧
     (current_time demoState ≤ ⌊(5 : ℚ)⌋ →
       ∃ s', call_me_later demoState 5 = some s' ∧
         countReqCall ⌊(5 : ℚ)⌋ s'.events = 1 ∧
         call_me_later s' 5 = some s') ∧
     (BatsimSimulatorHandler.call_me_later demoBatsim 5).requests.countP
        (fun r => r == ⟨(BatsimSimulatorHandler.current_time demoBatsim : ℚ),
           .callMeLater ((⌊(5 : ℚ)⌋ : ℚ) + 9 / 10000)⟩) =
      demoBatsim.requests.countP
        (fun r => r == ⟨(BatsimSimulatorHandler.current_time demoBatsim : ℚ),
           .callMeLater ((⌊(5 : ℚ)⌋ : ℚ) + 9 / 10000)⟩) + 1) :=
  ⟨List.sorted_nil, by simp [countReqCall, demoState],
   C5_call_me_later_amended demoState demoBatsim 5 List.sorted_nil
     (by simp [countReqCall, demoState])⟩

/-- Unfolding of `proceed_simulation` on a running handler with a
nonempty queue. -/
theorem proceed_simulation_cons {s : GridState} {e : SimEvent} {es : List SimEvent}
    (hrun : s.is_running = true) (hev : s.events = e :: es) :
    proceed_simulation s =
      some (_dispatch_events { s with curTime := e.timestamp }) := by
  unfold proceed_simulation
  rw [if_neg (by simp [hrun]), if_neg (by simp [hev]), hev]

theorem demo_execute_eval : execute_job demoState "j" [0] = some demoAfterExec := by
  refine ((execute_job_eval demoState "j" [0] demoJob demoProfile 2
    rfl rfl rfl (by norm_num) (by norm_num [demoProfile]) (by norm_num [demoJob])).1
    rfl).trans ?_
  norm_num [demoState, demoProfile, demoJob, demoJob40, demoAfterExec, current_time,
    sortedInsert, dictRemove, Rat.floor_def, min_def]
  all_goals decide

theorem demo_proceed1_eval : proceed_simulation demoAfterExec = some demoAfterP1 := by
  rw [proceed_simulation_cons rfl rfl]
  norm_num [_dispatch_events, demoAfterExec, demoAfterP1, demoState, current_time,
    Rat.floor_def]

theorem demo_proceed2_eval : proceed_simulation demoAfterP1 = some demoAfterP2 := by
  rw [proceed_simulation_cons rfl rfl]
  norm_num [_dispatch_events, demoAfterP1, demoAfterP2, demoAfterExec, demoState,
    current_time, Rat.floor_def]

/-- A completion event for a different job id is not matched. -/
theorem isCompletedFor_disjoint {i j : String} (hne : i ≠ j) (e : SimEvent)
    (h : isCompletedFor j e = true) : isCompletedFor i e = false := by
  cases e with
  | mk ts d =>
    cases d <;> simp [isCompletedFor] at h ⊢
    intro hji
    refine hne ?_
    rw [← hji]
    exact h

theorem popFirstCompleted_none {i : String} {l : List SimEvent}
    (h : ∀ e ∈ l, isCompletedFor i e = false) : popFirstCompleted i l = none := by
  induction l with
  | nil => rfl
  | cons e es ih =>
    rw [popFirstCompleted, if_neg (by simp [h e (List.mem_cons_self e es)]),
      ih fun x hx => h x (List.mem_cons_of_mem e hx)]
    rfl

theorem popFirstCompleted_sublist {i : String} :
    ∀ {l l' : List SimEvent}, popFirstCompleted i l = some l' → l'.Sublist l := by
  intro l
  induction l with
  | nil => intro l' h; cases h
  | cons e es ih =>
    intro l' h
    rw [popFirstCompleted] at h
    by_cases he : isCompletedFor i e = true
    · rw [if_pos he] at h
      cases h
      exact (List.sublist_cons_self e es)
    · rw [if_neg he] at h
      rcases Option.map_eq_some'.mp h with ⟨l1, h1, rfl⟩
      exact (ih h1).cons_cons e

theorem popFirstCompleted_some {i : String} {l : List SimEvent}
    (h : 0 < l.countP (isCompletedFor i)) :
    ∃ l', popFirstCompleted i l = some l' ∧
      l'.countP (isCompletedFor i) = l.countP (isCompletedFor i) - 1 ∧
      ∀ p : SimEvent → Bool, (∀ e, p e = true → isCompletedFor i e = false) →
        l'.countP p = l.countP p := by
  induction l with
  | nil => simp at h
  | cons e es ih =>
    by_cases he : isCompletedFor i e = true
    · refine ⟨es, by rw [popFirstCompleted, if_pos he], ?_, ?_⟩
      · simp [List.countP_cons, he]
      · intro p hp
        have : p e = false := by
          by_contra hpe
          have := hp e (Bool.of_not_eq_false hpe)
          rw [this] at he
          cases he
        simp [List.countP_cons, this]
    · have he' : isCompletedFor i e = false := Bool.of_not_eq_true he
      have hes : 0 < es.countP (isCompletedFor i) := by
        rw [List.countP_cons, he'] at h
        simpa using h
      obtain ⟨l', hl', hc, hpres⟩ := ih hes
      refine ⟨e :: l', ?_, ?_, ?_⟩
      · rw [popFirstCompleted, if_neg he, hl']
        rfl
      · simp [List.countP_cons, he', hc]
      · intro p hp
        rw [List.countP_cons, List.countP_cons, hpres p hp]

/-- The kill loop of `kill_job` succeeds when every id has exactly one
pending completion event, removing exactly those events. -/
theorem kill_fold_some :
    ∀ (ids : List String) (l : List SimEvent), ids.Nodup →
      (∀ i ∈ ids, l.countP (isCompletedFor i) = 1) →
      ∃ l', List.foldlM (fun acc i => popFirstCompleted i acc) l ids = some l' ∧
        (∀ i ∈ ids, l'.countP (isCompletedFor i) = 0) ∧
        ∀ p : SimEvent → Bool,
          (∀ e, p e = true → ∀ i ∈ ids, isCompletedFor i e = false) →
          l'.countP p = l.countP p := by
  intro ids
  induction ids with
  | nil =>
    intro l _ _
    exact ⟨l, rfl, by simp, fun p _ => rfl⟩
  | cons i rest ih =>
    intro l hnd h
    rw [List.nodup_cons] at hnd
    have hi1 : l.countP (isCompletedFor i) = 1 := h i (List.mem_cons_self i rest)
    obtain ⟨l1, hpop, hc1, hpres1⟩ :=
      popFirstCompleted_some (i := i) (l := l) (by omega)
    have hrest : ∀ j ∈ rest, l1.countP (isCompletedFor j) = 1 := by
      intro j hj
      have hne : i ≠ j := fun hij => hnd.1 (hij ▸ hj)
      rw [hpres1 (isCompletedFor j) (fun e he => isCompletedFor_disjoint hne e he)]
      exact h j (List.mem_cons_of_mem i hj)
    obtain ⟨l2, hfold, hz2, hpres2⟩ := ih l1 hnd.2 hrest
    refine ⟨l2, ?_, ?_, ?_⟩
    · rw [List.foldlM_cons, hpop]
      exact hfold
    · intro j hj
      rcases List.mem_cons.mp hj with rfl | hj
      · have hp : ∀ e, isCompletedFor j e = true →
            ∀ j' ∈ rest, isCompletedFor j' e = false := by
          intro e he j' hj'
          refine isCompletedFor_disjoint (fun hji => hnd.1 ?_) e he
          rw [← hji]
          exact hj'
        rw [hpres2 (isCompletedFor j) hp, hc1, hi1]
      · exact hz2 j hj
    · intro p hp
      rw [hpres2 p (fun e he j hj => hp e he j (List.mem_cons_of_mem i hj)),
        hpres1 p (fun e he => hp e he i (List.mem_cons_self i rest))]

/-- The kill loop fails (`StopIteration`) when some id has no pending
completion event. -/
theorem kill_fold_none :
    ∀ (ids : List String) (l : List SimEvent) (i : String), i ∈ ids →
      l.countP (isCompletedFor i) = 0 →
      List.foldlM (fun acc j => popFirstCompleted j acc) l ids = none := by
  intro ids
  induction ids with
  | nil => intro l i hi; cases hi
  | cons j rest ih =>
    intro l i hi hc
    rcases List.mem_cons.mp hi with rfl | hi
    · have hnone : popFirstCompleted i l = none :=
        popFirstCompleted_none fun e he => by
          have := List.countP_eq_zero.mp hc e he
          exact Bool.of_not_eq_true this
      rw [List.foldlM_cons, hnone]
      rfl
    · cases hpop : popFirstCompleted j l with
      | none =>
        rw [List.foldlM_cons, hpop]
        rfl
      | some l1 =>
        rw [List.foldlM_cons, hpop]
        have hsub := popFirstCompleted_sublist hpop
        have hle := hsub.countP_le (isCompletedFor i)
        exact ih l1 i hi (by omega)

/-- C2 (amended): when every killed id has exactly one pending completion
event, `kill_job` removes those events (no completion remains pending for
the ids) and queues exactly one additional `JobKilled` event at
`current_time` listing all the ids; but when some id has no pending
completion event — in particular when its completion has already been
dispatched — `kill_job` raises `StopIteration` instead of being a no-op. -/
theorem C2_kill_job_amended (s : GridState) (job_ids : List String)
    (hnd : job_ids.Nodup) :
    ((∀ i ∈ job_ids, s.events.countP (isCompletedFor i) = 1) →
      ∃ s', kill_job s job_ids = some s' ∧
        (∀ i ∈ job_ids, s'.events.countP (isCompletedFor i) = 0) ∧
        s'.events.countP
            (fun e => e == ⟨(current_time s : ℚ), .jobKilled job_ids⟩) =
          s.events.countP
            (fun e => e == ⟨(current_time s : ℚ), .jobKilled job_ids⟩) + 1) ∧
    ((∃ i ∈ job_ids, s.events.countP (isCompletedFor i) = 0) →
      kill_job s job_ids = none) := by
  constructor
  · intro h
    obtain ⟨l', hfold, hz, hpres⟩ := kill_fold_some job_ids s.events hnd h
    have hkj : kill_job s job_ids =
        some { s with
               events := sortedInsert SimEvent.timestamp
                 ⟨(current_time s : ℚ), .jobKilled job_ids⟩ l' } := by
      rw [kill_job, hfold]
    refine ⟨_, hkj, ?_, ?_⟩
    · intro i hi
      rw [sortedInsert_countP]
      have hne : isCompletedFor i
          ⟨(current_time s : ℚ), .jobKilled job_ids⟩ = false := rfl
      simp [hne, hz i hi]
    · rw [sortedInsert_countP,
        hpres (fun e => e == ⟨(current_time s : ℚ), .jobKilled job_ids⟩) ?_]
      · simp
      · intro e he i _
        have : e = ⟨(current_time s : ℚ), .jobKilled job_ids⟩ := eq_of_beq he
        rw [this]
        rfl
  · rintro ⟨i, hi, hc⟩
    rw [kill_job, kill_fold_none job_ids s.events i hi hc]

/-- Witness for the amended C2: after `demoState` executes job "j" and the
first advance dispatches the time-0 events, the completion event for "j"
at time 50 is still pending and `kill_job` cancels it. -/
theorem C2_kill_job_amended_witness :
    (["j"] : List String).Nodup ∧
    (((∀ i ∈ (["j"] : List String),
        demoAfterP1.events.countP (isCompletedFor i) = 1) →
      ∃ s', kill_job demoAfterP1 ["j"] = some s' ∧
        (∀ i ∈ (["j"] : List String),
          s'.events.countP (isCompletedFor i) = 0) ∧
        s'.events.countP
            (fun e => e == ⟨(current_time demoAfterP1 : ℚ), .jobKilled ["j"]⟩) =
          demoAfterP1.events.countP
            (fun e => e == ⟨(current_time demoAfterP1 : ℚ), .jobKilled ["j"]⟩) + 1) ∧
     ((∃ i ∈ (["j"] : List String),
        demoAfterP1.events.countP (isCompletedFor i) = 0) →
      kill_job demoAfterP1 ["j"] = none)) :=
  ⟨by decide, C2_kill_job_amended demoAfterP1 ["j"] (by decide)⟩

/-- C2 counterexample: job "j" is executed, both advances run, and its
completion event is dispatched at time 50; killing "j" afterwards is not a
no-op — it raises `StopIteration` (modelled `none`). -/
theorem C2_kill_job_counterexample :
    execute_job demoState "j" [0] = some demoAfterExec ∧
    proceed_simulation demoAfterExec = some demoAfterP1 ∧
    proceed_simulation demoAfterP1 = some demoAfterP2 ∧
    kill_job demoAfterP2 ["j"] = none ∧
    kill_job demoAfterP2 ["j"] ≠ some demoAfterP2 :=
  ⟨demo_execute_eval, demo_proceed1_eval, demo_proceed2_eval, rfl,
   fun h => Option.noConfusion ((rfl : kill_job demoAfterP2 ["j"] = none) ▸ h)⟩

theorem demoF_execute_eval : execute_job demoStateF "f" [0] = some demoFAfterExec := by
  refine ((execute_job_eval demoStateF "f" [0] demoJobF demoProfile 2
    rfl rfl rfl (by norm_num) (by norm_num [demoProfile]) (by norm_num [demoJobF])).1
    rfl).trans ?_
  norm_num [demoStateF, demoState, demoProfile, demoJobF, demoFAfterExec, current_time,
    sortedInsert, dictRemove, Rat.floor_def, min_def]

theorem demoF_proceed1_eval :
    proceed_simulation demoFAfterExec = some demoFAfterP1 := by
  rw [proceed_simulation_cons rfl rfl]
  norm_num [_dispatch_events, demoFAfterExec, demoFAfterP1, demoStateF, demoState,
    current_time, Rat.floor_def]

theorem demoF_proceed2_eval :
    proceed_simulation demoFAfterP1 = some demoFAfterP2 := by
  rw [proceed_simulation_cons rfl rfl]
  norm_num [_dispatch_events, demoFAfterP1, demoFAfterP2, demoFAfterExec, demoStateF,
    demoState, current_time, Rat.floor_def]

/-- C3 counterexample: on a run with a fractional completion timestamp
(walltime 3/2 < runtime), the advance sets the internal clock to the head
event's timestamp 3/2, but `current_time` becomes its floor 1 — not the
event's timestamp — and the event sharing the head timestamp is not
dispatched. -/
theorem C3_proceed_counterexample :
    execute_job demoStateF "f" [0] = some demoFAfterExec ∧
    proceed_simulation demoFAfterExec = some demoFAfterP1 ∧
    proceed_simulation demoFAfterP1 = some demoFAfterP2 ∧
    demoFAfterP1.events =
      [⟨3 / 2, .jobCompleted "f" .COMPLETED_WALLTIME_REACHED "0" [0]⟩] ∧
    demoFAfterP2.events = demoFAfterP1.events ∧
    demoFAfterP2.dispatched = demoFAfterP1.dispatched ∧
    (current_time demoFAfterP2 : ℚ) ≠ (3 / 2 : ℚ) := by
  refine ⟨demoF_execute_eval, demoF_proceed1_eval, demoF_proceed2_eval,
    rfl, rfl, rfl, ?_⟩
  norm_num [current_time, demoFAfterP2, demoFAfterP1, demoFAfterExec, demoStateF,
    demoState, Rat.floor_def]

/-- C3 (amended): `proceed_simulation` fails on a non-running handler;
with no pending events, an ended submitter and no pending jobs it
transitions to finishing; otherwise, with a nonempty queue, it sets the
internal clock to the head event's timestamp (`current_time` becomes its
floor) and dispatches exactly the events whose timestamp equals that
floored time — when the head timestamp is integral this is every event
sharing it. -/
theorem C3_proceed_amended (s : GridState) :
    (s.is_running = false → proceed_simulation s = none) ∧
    (s.is_running = true → s.events = [] → s.submitter_ended = true →
      s.jobs = [] → proceed_simulation s = some (finish s)) ∧
    (∀ e es, s.is_running = true → s.events = e :: es →
      ∃ s', proceed_simulation s = some s' ∧
        s'.curTime = e.timestamp ∧
        current_time s' = ⌊e.timestamp⌋ ∧
        s'.events = s.events.dropWhile
          (fun x => x.timestamp == ((⌊e.timestamp⌋ : ℤ) : ℚ)) ∧
        s'.dispatched = s.dispatched ++ s.events.takeWhile
          (fun x => x.timestamp == ((⌊e.timestamp⌋ : ℤ) : ℚ)) ∧
        (s.events.Sorted (fun a b => a.timestamp ≤ b.timestamp) →
          ((⌊e.timestamp⌋ : ℤ) : ℚ) = e.timestamp →
          s'.dispatched = s.dispatched ++ s.events.filter
            (fun x => x.timestamp == e.timestamp))) := by
  refine ⟨fun h => by simp [proceed_simulation, h], ?_, ?_⟩
  · intro hrun hev hend hjobs
    rw [proceed_simulation, if_neg (by simp [hrun]), if_pos (by simp [hev, hend, hjobs])]
  · intro e es hrun hev
    refine ⟨_, proceed_simulation_cons hrun hev, ?_, ?_, ?_, ?_, ?_⟩
    · rfl
    · simp [_dispatch_events, current_time]
    · simp [_dispatch_events, current_time]
    · simp [_dispatch_events, current_time]
    · intro hsort hint
      have hc : ∀ x ∈ s.events, e.timestamp ≤ x.timestamp := by
        intro x hx
        rw [hev] at hx hsort
        rcases List.mem_cons.mp hx with rfl | hx
        · exact le_refl _
        · exact (List.sorted_cons.mp hsort).1 x hx
      have heq := sorted_takeWhile_eq_filter SimEvent.timestamp hsort e.timestamp hc
      simp only [_dispatch_events, current_time, hint]
      rw [heq]

/-- A resource whose node was already visited is skipped by the planning
loop. -/
theorem processResource_visited (p : Platform) (pstate : ℕ) (acc : PlanAcc)
    (r : Resource) (h : acc.visited.contains r.parent_id = true) :
    processResource p pstate acc r = some acc := by
  unfold processResource
  rw [if_pos h]

theorem fold_processResource_visited (p : Platform) (pstate : ℕ) (acc : PlanAcc) :
    ∀ l : List Resource, (∀ r ∈ l, acc.visited.contains r.parent_id = true) →
    List.foldlM (processResource p pstate) acc l = some acc := by
  intro l
  induction l with
  | nil => intro _; rfl
  | cons r rs ih =>
    intro h
    rw [List.foldlM_cons, processResource_visited p pstate acc r
      (h r (List.mem_cons_self r rs))]
    exact ih fun x hx => h x (List.mem_cons_of_mem r hx)

/-- C4: on the self-contained backend, requesting a sleep power state for
resources of a single (currently computing) node produces exactly one
state-changed event moving the node's full resource set to the
switching-off state at `current_time` and exactly one moving it to the
sleep state at `current_time + floor(1 / switchingOffSpeed)`; requesting a
computation state on a node that is on needs no transition and produces
one state-changed event at `current_time` (duration 0). -/
theorem C4_set_resources_pstate_transition (s : GridState)
    (resources : List ℕ) (pstate : ℕ) (n : Node) (tps offPs : PowerState)
    (r0 : Resource) (rs0 : List Resource)
    (hrs : get_resources s.platform resources = r0 :: rs0)
    (hpar : ∀ r ∈ r0 :: rs0, r.parent_id = n.id)
    (hnode : get_node s.platform n.id = some n)
    (hnres : n.resources ≠ [])
    (hnpar : ∀ r ∈ n.resources, r.parent_id = n.id)
    (htps : n.power_states.find? (fun ps => ps.id == pstate) = some tps)
    (hon : n.is_on = true) :
    (tps.type = .sleep →
      n.power_states.find? (fun ps => ps.type == .switching_off) = some offPs →
      0 < offPs.speed →
      set_resources_pstate s resources pstate = some { s with
        events := sortedInsert SimEvent.timestamp
          ⟨(current_time s : ℚ) + ((⌊1 / offPs.speed⌋ : ℤ) : ℚ),
           .resourcePowerStateChanged (n.resources.map Resource.id) pstate⟩
          (sortedInsert SimEvent.timestamp
            ⟨(current_time s : ℚ),
             .resourcePowerStateChanged (n.resources.map Resource.id) offPs.id⟩
            s.events) }) ∧
    (tps.type = .computation →
      set_resources_pstate s resources pstate = some { s with
        events := sortedInsert SimEvent.timestamp
          ⟨(current_time s : ℚ) + ((0 : ℤ) : ℚ),
           .resourcePowerStateChanged (n.resources.map Resource.id) pstate⟩
          s.events }) := by
  have hlast : n.resources.getLast? = some (n.resources.getLast hnres) :=
    List.getLast?_eq_getLast n.resources hnres
  have hlastpar : (n.resources.getLast hnres).parent_id = n.id :=
    hnpar _ (List.getLast_mem hnres)
  have hr0 : r0.parent_id = n.id := hpar r0 (List.mem_cons_self r0 rs0)
  constructor
  · intro hty hoff hsp
    have hstep : processResource s.platform pstate ⟨[], [], [], none⟩ r0 =
        some ⟨[(⌊1 / offPs.speed⌋, n.resources.map Resource.id)],
              [(offPs.id, n.resources.map Resource.id)],
              [n.id], some (n.resources.getLast hnres)⟩ := by
      have h1 : (0 : ℚ) ≤ offPs.speed⁻¹ := by positivity
      simp [processResource, hr0, hnode, htps, hty, hoff, hsp.ne', hlast,
        hlastpar, dAppend, pyInt_of_nonneg h1]
    have hfold : List.foldlM (processResource s.platform pstate)
        (⟨[], [], [], none⟩ : PlanAcc) (get_resources s.platform resources) =
        some ⟨[(⌊1 / offPs.speed⌋, n.resources.map Resource.id)],
              [(offPs.id, n.resources.map Resource.id)],
              [n.id], some (n.resources.getLast hnres)⟩ := by
      rw [hrs, List.foldlM_cons, hstep]
      exact fold_processResource_visited _ _ _ rs0 fun r hr => by
        simp [hpar r (List.mem_cons_of_mem r0 hr)]
    rw [set_resources_pstate, hfold]
    simp [List.foldl_cons, List.foldl_nil]
  · intro hty
    have hstep : processResource s.platform pstate ⟨[], [], [], none⟩ r0 =
        some ⟨[((0 : ℤ), n.resources.map Resource.id)], [],
              [n.id], some (n.resources.getLast hnres)⟩ := by
      simp [processResource, hr0, hnode, htps, hty, hon, hlast, hlastpar, dAppend]
    have hfold : List.foldlM (processResource s.platform pstate)
        (⟨[], [], [], none⟩ : PlanAcc) (get_resources s.platform resources) =
        some ⟨[((0 : ℤ), n.resources.map Resource.id)], [],
              [n.id], some (n.resources.getLast hnres)⟩ := by
      rw [hrs, List.foldlM_cons, hstep]
      exact fold_processResource_visited _ _ _ rs0 fun r hr => by
        simp [hpar r (List.mem_cons_of_mem r0 hr)]
    rw [set_resources_pstate, hfold]
    simp [List.foldl_cons, List.foldl_nil]

/-- Witness for C4 on the demo platform: sleep request (pstate 1) gives a
switching-off event at 0 and a sleep event at `0 + floor(1/(1/3)) = 3`,
both for the node's full resource set; computation request (pstate 0) on
the powered-on node gives one event at 0. -/
theorem C4_set_resources_pstate_transition_witness :
    set_resources_pstate demoState [0] 1 = some { demoState with
      events := [⟨0, .resourcePowerStateChanged [0, 1] 2⟩,
                 ⟨3, .resourcePowerStateChanged [0, 1] 1⟩] } ∧
    set_resources_pstate demoState [0] 0 = some { demoState with
      events := [⟨0, .resourcePowerStateChanged [0, 1] 0⟩] } := by
  constructor
  · refine ((C4_set_resources_pstate_transition demoState [0] 1 demoNode
      ⟨1, .sleep, 0⟩ ⟨2, .switching_off, 1/3⟩ ⟨0, 0, 2⟩ [] rfl (by decide) rfl
      (by decide) (by decide) rfl rfl).1 rfl rfl (by norm_num)).trans ?_
    norm_num [demoState, demoNode, current_time, sortedInsert, Rat.floor_def]
  · refine ((C4_set_resources_pstate_transition demoState [0] 0 demoNode
      ⟨0, .computation, 2⟩ ⟨0, .computation, 2⟩ ⟨0, 0, 2⟩ [] rfl (by decide) rfl
      (by decide) (by decide) rfl rfl).2 rfl).trans ?_
    norm_num [demoState, demoNode, current_time, sortedInsert, Rat.floor_def]

end GridSimulatorHandler

namespace BatsimSimulatorHandler

/-- The merge scan finds nothing when no queued request is a
`SET_RESOURCE_STATE` at the given timestamp. -/
theorem mergeScan_none (ct : ℚ) (res : List ℕ) :
    ∀ l : List Request,
      (∀ r ∈ l, ¬(r.timestamp = ct ∧ r.type = RequestType.SET_RESOURCE_STATE)) →
      mergeScan ct res l = none := by
  intro l
  induction l with
  | nil => intro _; rfl
  | cons r rs ih =>
    intro h
    rw [mergeScan, if_neg (h r (List.mem_cons_self r rs)),
      ih fun x hx => h x (List.mem_cons_of_mem r hx)]
    rfl

/-- The merge scan updates the first matching request in place. -/
theorem mergeScan_found (ct : ℚ) (res : List ℕ) (req : Request)
    (hreq : req.timestamp = ct ∧ req.type = RequestType.SET_RESOURCE_STATE) :
    ∀ l1 l2 : List Request,
      (∀ r ∈ l1, ¬(r.timestamp = ct ∧ r.type = RequestType.SET_RESOURCE_STATE)) →
      mergeScan ct res (l1 ++ req :: l2) =
        some (l1 ++ req.update_resources res :: l2) := by
  intro l1
  induction l1 with
  | nil =>
    intro l2 _
    rw [List.nil_append, mergeScan, if_pos hreq, List.nil_append]
  | cons r rs ih =>
    intro l2 h
    rw [List.cons_append, mergeScan, if_neg (h r (List.mem_cons_self r rs)),
      ih l2 fun x hx => h x (List.mem_cons_of_mem r hx)]
    rfl

/-- What `set_resources_pstate` does to the request buffer and the clock. -/
theorem set_resources_pstate_requests {b b' : BatsimState} {res : List ℕ}
    {ps : ℕ} (h : set_resources_pstate b res ps = some b') :
    b'.curTime = b.curTime ∧
    (mergeScan (current_time b : ℚ) res b.requests = none →
      b'.requests = sortedInsert Request.timestamp
        ⟨(current_time b : ℚ), .setResourceState res ps⟩ b.requests) ∧
    (∀ rs, mergeScan (current_time b : ℚ) res b.requests = some rs →
      b'.requests = rs) := by
  unfold set_resources_pstate at h
  rcases Option.map_eq_some'.mp h with ⟨acc, hacc, rfl⟩
  refine ⟨?_, ?_, ?_⟩
  · cases hms : mergeScan (current_time b : ℚ) res b.requests <;>
      simp [hms, _append_request]
  · intro hms
    simp [hms, _append_request]
  · intro rs hms
    simp [hms]

/-- Two `set_resources_pstate` calls at the same not-yet-sent timestamp
leave the buffer with the old requests plus a single merged
`SET_RESOURCE_STATE` request whose resource set is the union and whose
pstate is the first call's. -/
theorem remote_double_set_requests (b b1 b2 : BatsimState)
    (res1 res2 : List ℕ) (ps1 ps2 : ℕ)
    (hno : ∀ r ∈ b.requests,
      ¬(r.timestamp = (current_time b : ℚ) ∧ r.type = RequestType.SET_RESOURCE_STATE))
    (h1 : set_resources_pstate b res1 ps1 = some b1)
    (h2 : set_resources_pstate b1 res2 ps2 = some b2) :
    ∃ l1 l2, b.requests = l1 ++ l2 ∧
      b2.requests = l1 ++
        (⟨(current_time b : ℚ),
          .setResourceState (listUnion res1 res2) ps1⟩ : Request) :: l2 ∧
      b2.curTime = b.curTime := by
  obtain ⟨hct1, hnone1, _⟩ := set_resources_pstate_requests h1
  obtain ⟨hct2, _, hsome2⟩ := set_resources_pstate_requests h2
  have hreq1 : b1.requests = sortedInsert Request.timestamp
      ⟨(current_time b : ℚ), .setResourceState res1 ps1⟩ b.requests :=
    hnone1 (mergeScan_none _ _ _ hno)
  obtain ⟨l1, l2, hsplit, horig⟩ := sortedInsert_split Request.timestamp
    (⟨(current_time b : ℚ), .setResourceState res1 ps1⟩ : Request) b.requests
  have hctb1 : (current_time b1 : ℚ) = (current_time b : ℚ) := by
    rw [current_time, current_time, hct1]
  have hms2 : mergeScan (current_time b1 : ℚ) res2 b1.requests =
      some (l1 ++ (⟨(current_time b : ℚ),
        .setResourceState (listUnion res1 res2) ps1⟩ : Request) :: l2) := by
    rw [hctb1, hreq1, hsplit]
    exact mergeScan_found (current_time b : ℚ) res2
      ⟨(current_time b : ℚ), .setResourceState res1 ps1⟩ ⟨rfl, rfl⟩ l1 l2
      fun r hr => hno r (by rw [horig]; exact List.mem_append_left l2 hr)
  exact ⟨l1, l2, horig, hsome2 _ hms2, by rw [hct2, hct1]⟩

/-- A request that is not a `SET_RESOURCE_STATE` at timestamp `ct` fails
the boolean filter for such requests. -/
theorem srs_pred_false {ct : ℚ} {r : Request}
    (h : ¬(r.timestamp = ct ∧ r.type = RequestType.SET_RESOURCE_STATE)) :
    (r.timestamp == ct && r.type == RequestType.SET_RESOURCE_STATE) = false := by
  by_cases h1 : r.timestamp = ct
  · by_cases h2 : r.type = RequestType.SET_RESOURCE_STATE
    · exact absurd ⟨h1, h2⟩ h
    · simp [h2]
  · simp [h1]

/-- C9: in the remote backend, two set-resource-power-state requests for
the same not-yet-sent timestamp are merged into a single request whose
resource-id set is the union of both (no duplicate is queued), and each
advance sends exactly one batch carrying every request queued since the
previous batch, emptying the buffer. -/
theorem C9_remote_merge_and_batch (b b1 b2 : BatsimState)
    (res1 res2 : List ℕ) (ps : ℕ)
    (hno : ∀ r ∈ b.requests,
      ¬(r.timestamp = (current_time b : ℚ) ∧ r.type = RequestType.SET_RESOURCE_STATE))
    (h1 : set_resources_pstate b res1 ps = some b1)
    (h2 : set_resources_pstate b1 res2 ps = some b2) :
    b2.requests.filter (fun r => r.timestamp == (current_time b : ℚ) &&
        r.type == RequestType.SET_RESOURCE_STATE) =
      [⟨(current_time b : ℚ), .setResourceState (listUnion res1 res2) ps⟩] ∧
    (∀ (now : ℚ) (evs : List SimEvent), b2.simulatorUp = true →
      proceed_simulation b2 now evs = some (⟨current_time b2, b2.requests⟩,
        { b2 with curTime := now, requests := [],
                  dispatched := b2.dispatched ++ evs })) := by
  obtain ⟨l1, l2, horig, hreq, _⟩ :=
    remote_double_set_requests b b1 b2 res1 res2 ps ps hno h1 h2
  constructor
  · have hl1 : l1.filter (fun r => r.timestamp == (current_time b : ℚ) &&
        r.type == RequestType.SET_RESOURCE_STATE) = [] := by
      rw [List.filter_eq_nil_iff]
      intro r hr
      simp [srs_pred_false (hno r (by rw [horig]; exact List.mem_append_left l2 hr))]
    have hl2 : l2.filter (fun r => r.timestamp == (current_time b : ℚ) &&
        r.type == RequestType.SET_RESOURCE_STATE) = [] := by
      rw [List.filter_eq_nil_iff]
      intro r hr
      simp [srs_pred_false (hno r (by rw [horig]; exact List.mem_append_right l1 hr))]
    rw [hreq, List.filter_append, hl1, List.filter_cons, hl2]
    simp [Request.type]
  · intro now evs hup
    unfold proceed_simulation _send_requests
    rw [if_neg (by simp [hup])]

theorem demoB1_eval : set_resources_pstate demoBatsim [0] 1 = some demoB1 := rfl

theorem demoB2_eval : set_resources_pstate demoB1 [1] 1 = some demoB2 := rfl

/-- Witness for C9 at the demo protocol handler. -/
theorem C9_remote_merge_and_batch_witness :
    set_resources_pstate demoBatsim [0] 1 = some demoB1 ∧
    set_resources_pstate demoB1 [1] 1 = some demoB2 ∧
    (demoB2.requests.filter (fun r => r.timestamp == (current_time demoBatsim : ℚ) &&
        r.type == RequestType.SET_RESOURCE_STATE) =
      [⟨(current_time demoBatsim : ℚ), .setResourceState (listUnion [0] [1]) 1⟩] ∧
     (∀ (now : ℚ) (evs : List SimEvent), demoB2.simulatorUp = true →
       proceed_simulation demoB2 now evs = some (⟨current_time demoB2, demoB2.requests⟩,
         { demoB2 with curTime := now, requests := [],
                       dispatched := demoB2.dispatched ++ evs }))) :=
  ⟨demoB1_eval, demoB2_eval,
   C9_remote_merge_and_batch demoBatsim demoB1 demoB2 [0] [1] 1
     (by simp [demoBatsim]) demoB1_eval demoB2_eval⟩

/-- C10: when the second same-timestamp call targets a different power
state, the merged request keeps the first call's pstate with the unioned
resource set, and no request carrying the second call's pstate is ever in
the outgoing buffer. -/
theorem C10_remote_merge_keeps_first_pstate (b b1 b2 : BatsimState)
    (res1 res2 : List ℕ) (ps1 ps2 : ℕ)
    (hno : ∀ r ∈ b.requests,
      ¬(r.timestamp = (current_time b : ℚ) ∧ r.type = RequestType.SET_RESOURCE_STATE))
    (h1 : set_resources_pstate b res1 ps1 = some b1)
    (h2 : set_resources_pstate b1 res2 ps2 = some b2)
    (hnops2 : ∀ r ∈ b.requests, ∀ rs, r.data ≠ .setResourceState rs ps2)
    (hne : ps1 ≠ ps2) :
    b2.requests.filter (fun r => r.timestamp == (current_time b : ℚ) &&
        r.type == RequestType.SET_RESOURCE_STATE) =
      [⟨(current_time b : ℚ), .setResourceState (listUnion res1 res2) ps1⟩] ∧
    (∀ r ∈ b2.requests, ∀ rs, r.data ≠ .setResourceState rs ps2) := by
  obtain ⟨l1, l2, horig, hreq, _⟩ :=
    remote_double_set_requests b b1 b2 res1 res2 ps1 ps2 hno h1 h2
  constructor
  · have hl1 : l1.filter (fun r => r.timestamp == (current_time b : ℚ) &&
        r.type == RequestType.SET_RESOURCE_STATE) = [] := by
      rw [List.filter_eq_nil_iff]
      intro r hr
      simp [srs_pred_false (hno r (by rw [horig]; exact List.mem_append_left l2 hr))]
    have hl2 : l2.filter (fun r => r.timestamp == (current_time b : ℚ) &&
        r.type == RequestType.SET_RESOURCE_STATE) = [] := by
      rw [List.filter_eq_nil_iff]
      intro r hr
      simp [srs_pred_false (hno r (by rw [horig]; exact List.mem_append_right l1 hr))]
    rw [hreq, List.filter_append, hl1, List.filter_cons, hl2]
    simp [Request.type]
  · intro r hr rs
    rw [hreq] at hr
    rcases List.mem_append.mp hr with hr1 | hr2
    · exact hnops2 r (by rw [horig]; exact List.mem_append_left l2 hr1) rs
    · rcases List.mem_cons.mp hr2 with rfl | hr2
      · intro hd
        injection hd with _ hps
        exact hne hps
      · exact hnops2 r (by rw [horig]; exact List.mem_append_right l1 hr2) rs

theorem demoB2b_eval : set_resources_pstate demoB1 [1] 4 = some demoB2b := rfl

/-- Witness for C10 at the demo protocol handler (first call pstate 1,
second call pstate 4). -/
theorem C10_remote_merge_keeps_first_pstate_witness :
    set_resources_pstate demoBatsim [0] 1 = some demoB1 ∧
    set_resources_pstate demoB1 [1] 4 = some demoB2b ∧
    (demoB2b.requests.filter (fun r => r.timestamp == (current_time demoBatsim : ℚ) &&
        r.type == RequestType.SET_RESOURCE_STATE) =
      [⟨(current_time demoBatsim : ℚ), .setResourceState (listUnion [0] [1]) 1⟩] ∧
     (∀ r ∈ demoB2b.requests, ∀ rs, r.data ≠ .setResourceState rs 4)) :=
  ⟨demoB1_eval, demoB2b_eval,
   C10_remote_merge_keeps_first_pstate demoBatsim demoB1 demoB2b [0] [1] 1 4
     (by simp [demoBatsim]) demoB1_eval demoB2b_eval (by simp [demoBatsim])
     (by norm_num)⟩

end BatsimSimulatorHandler

namespace GridSimulatorHandler

/-- `start` on a fresh handler dispatches the begins event immediately. -/
theorem start_initState (p : Platform) :
    start (initState p) p = some (startState p) := by
  simp [start, initState, _dispatch_events, sortedInsert, current_time, startState]

/-- `finish` on a running handler: stop, clear, dispatch one
`SimulationEnds` event at `current_time`. -/
theorem finish_running_eq (s : GridState) (hrun : s.is_running = true) :
    finish s = { s with
      is_running := false
      submitter_ended := true
      events := []
      profiles := []
      jobs := []
      dispatched := s.dispatched ++ [⟨(current_time s : ℚ), .simulationEnds⟩] } := by
  simp [finish, hrun, _dispatch_events, sortedInsert, current_time]

theorem dictInsert_mem {β : Type} {k : String} {v : β} {l : List (String × β)}
    {pr : String × β} (h : pr ∈ dictInsert k v l) : pr = (k, v) ∨ pr ∈ l := by
  unfold dictInsert at h
  by_cases hc : l.any (fun p => p.1 == k) = true
  · rw [if_pos hc] at h
    rcases List.mem_map.mp h with ⟨q, hq, hqe⟩
    by_cases hk : q.1 == k
    · rw [if_pos hk] at hqe
      exact Or.inl hqe.symm
    · rw [if_neg hk] at hqe
      exact Or.inr (hqe ▸ hq)
  · rw [if_neg hc] at h
    rcases List.mem_append.mp h with h1 | h1
    · exact Or.inr h1
    · exact Or.inl (List.mem_singleton.mp h1)

theorem lookup_mem {β : Type} {k : String} {v : β} :
    ∀ {l : List (String × β)}, l.lookup k = some v → (k, v) ∈ l := by
  intro l
  induction l with
  | nil => intro h; cases h
  | cons p ps ih =>
    intro h
    rw [List.lookup] at h
    by_cases hk : (k == p.1) = true
    · rw [hk] at h
      cases h
      rw [show k = p.1 from eq_of_beq hk]
      exact List.mem_cons_self p ps
    · rw [Bool.not_eq_true] at hk
      rw [hk] at h
      exact List.mem_cons_of_mem p (ih h)

theorem foldl_min_lb (c : ℚ) :
    ∀ (xs : List ℚ) (x : ℚ), c ≤ x → (∀ y ∈ xs, c ≤ y) → c ≤ xs.foldl min x := by
  intro xs
  induction xs with
  | nil => intro x hx _; exact hx
  | cons y ys ih =>
    intro x hx h
    rw [List.foldl_cons]
    exact ih (min x y) (le_min hx (h y (List.mem_cons_self y ys)))
      fun z hz => h z (List.mem_cons_of_mem y hz)

theorem minSpeed_nonneg {rs : List Resource} {m : ℚ}
    (h : ∀ r ∈ rs, 0 ≤ r.speed) (hm : minSpeed rs = some m) : 0 ≤ m := by
  unfold minSpeed at hm
  cases rs with
  | nil => cases hm
  | cons r rest =>
    simp only [List.map_cons, Option.some.injEq] at hm
    rw [← hm]
    exact foldl_min_lb 0 _ _ (h r (List.mem_cons_self r rest))
      fun y hy => by
        rcases List.mem_map.mp hy with ⟨r', hr', rfl⟩
        exact h r' (List.mem_cons_of_mem r hr')

theorem get_resources_speed_nonneg {p : Platform} (hp : platformWF p)
    {ids : List ℕ} : ∀ r ∈ get_resources p ids, 0 ≤ r.speed := by
  intro r hr
  have hr2 : r ∈ allResources p := List.mem_of_mem_filter hr
  unfold allResources at hr2
  rcases List.mem_flatten.mp hr2 with ⟨l, hl, hrl⟩
  rcases List.mem_map.mp hl with ⟨n, hn, rfl⟩
  exact (hp n hn).1 r hrl

theorem dAppend_keys {κ : Type} [DecidableEq κ] {k : κ} {vs : List ℕ}
    {l : List (κ × List ℕ)} {k' : κ × List ℕ} (h : k' ∈ dAppend k vs l) :
    k'.1 = k ∨ k' ∈ l := by
  unfold dAppend at h
  by_cases hc : l.any (fun p => p.1 = k) = true
  · rw [if_pos hc] at h
    rcases List.mem_map.mp h with ⟨q, hq, hqe⟩
    by_cases hk : q.1 = k
    · rw [if_pos hk] at hqe
      exact Or.inl (by rw [← hqe])
    · rw [if_neg hk] at hqe
      exact Or.inr (hqe ▸ hq)
  · rw [if_neg hc] at h
    rcases List.mem_append.mp h with h1 | h1
    · exact Or.inr h1
    · exact Or.inl (by rw [List.mem_singleton.mp h1])

/-- One planning step only adds switch delays that are nonnegative (for a
platform without negative speeds). -/
theorem processResource_keys_nonneg {p : Platform} (hp : platformWF p)
    {pstate : ℕ} {acc acc' : PlanAcc} {r : Resource}
    (h : processResource p pstate acc r = some acc')
    (hacc : ∀ k ∈ acc.timestamps, (0 : ℤ) ≤ k.1) :
    ∀ k ∈ acc'.timestamps, (0 : ℤ) ≤ k.1 := by
  unfold processResource at h
  split at h
  · cases h
    exact hacc
  · split at h
    · cases h
    · next n hn =>
      have hnmem : n ∈ p := List.mem_of_find?_eq_some hn
      split at h
      · cases h
      · next next_ps hfind =>
        split at h
        · cases h
        · next trans_ps hotp =>
          split at h
          · cases h
          · next tts htts =>
            have htts0 : (0 : ℤ) ≤ tts := by
              cases trans_ps with
              | none =>
                have htts2 : some (0 : ℤ) = some tts := htts
                injection htts2 with htts2
                rw [← htts2]
              | some tp =>
                have htts2 : (if tp.speed = 0 then none
                    else some (pyInt (1 / tp.speed))) = some tts := htts
                by_cases hsp : tp.speed = 0
                · rw [if_pos hsp] at htts2
                  cases htts2
                · rw [if_neg hsp] at htts2
                  have hmem : tp ∈ n.power_states := by
                    by_cases h1 : next_ps.type = PowerStateType.sleep
                    · rw [if_pos h1] at hotp
                      rcases Option.map_eq_some'.mp hotp with ⟨tp', htp', he⟩
                      injection he with he
                      subst he
                      exact List.mem_of_find?_eq_some htp'
                    · rw [if_neg h1] at hotp
                      by_cases h2 : next_ps.type = PowerStateType.computation ∧
                          n.is_on = false
                      · rw [if_pos h2] at hotp
                        rcases Option.map_eq_some'.mp hotp with ⟨tp', htp', he⟩
                        injection he with he
                        subst he
                        exact List.mem_of_find?_eq_some htp'
                      · rw [if_neg h2] at hotp
                        injection hotp with hotp
                        cases hotp
                  have hsp0 : (0 : ℚ) ≤ tp.speed := (hp n hnmem).2 tp hmem
                  injection htts2 with htts2
                  rw [← htts2]
                  exact pyInt_nonneg (by positivity)
            split at h
            · cases h
            · next lr hlr =>
              cases h
              intro k hk
              rcases dAppend_keys hk with h1 | h1
              · rw [h1]
                exact htts0
              · exact hacc k h1

theorem fold_processResource_keys_nonneg {p : Platform} (hp : platformWF p)
    {pstate : ℕ} :
    ∀ (l : List Resource) (acc acc' : PlanAcc),
      (∀ k ∈ acc.timestamps, (0 : ℤ) ≤ k.1) →
      List.foldlM (processResource p pstate) acc l = some acc' →
      ∀ k ∈ acc'.timestamps, (0 : ℤ) ≤ k.1 := by
  intro l
  induction l with
  | nil =>
    intro acc acc' hacc h
    cases h
    exact hacc
  | cons r rs ih =>
    intro acc acc' hacc h
    rw [List.foldlM_cons] at h
    cases hstep : processResource p pstate acc r with
    | none => rw [hstep] at h; cases h
    | some acc1 =>
      rw [hstep] at h
      exact ih acc1 acc' (processResource_keys_nonneg hp hstep hacc) h

/-- Folding sorted insertions of events with timestamps at least `c` into
a sorted queue bounded below by `c` keeps it sorted and bounded. -/
theorem foldl_insert_inv {β : Type} (mk : β → SimEvent) (c : ℚ) :
    ∀ (l : List β) (evs : List SimEvent),
      evs.Sorted (fun a b => a.timestamp ≤ b.timestamp) →
      (∀ e ∈ evs, c ≤ e.timestamp) →
      (∀ b ∈ l, c ≤ (mk b).timestamp) →
      (l.foldl (fun es b => sortedInsert SimEvent.timestamp (mk b) es) evs).Sorted
        (fun a b => a.timestamp ≤ b.timestamp) ∧
      ∀ e ∈ l.foldl (fun es b => sortedInsert SimEvent.timestamp (mk b) es) evs,
        c ≤ e.timestamp := by
  intro l
  induction l with
  | nil =>
    intro evs hs hlb _
    exact ⟨hs, hlb⟩
  | cons b bs ih =>
    intro evs hs hlb hmk
    rw [List.foldl_cons]
    refine ih _ (sortedInsert_sorted _ _ hs) ?_
      fun x hx => hmk x (List.mem_cons_of_mem b hx)
    intro e he
    rcases (sortedInsert_mem _ _ _ _).mp he with rfl | he
    · exact hmk b (List.mem_cons_self b bs)
    · exact hlb e he

theorem kill_fold_sublist :
    ∀ (ids : List String) (l l' : List SimEvent),
      List.foldlM (fun acc i => popFirstCompleted i acc) l ids = some l' →
      l'.Sublist l := by
  intro ids
  induction ids with
  | nil =>
    intro l l' h
    cases h
    exact List.Sublist.refl l
  | cons i rest ih =>
    intro l l' h
    rw [List.foldlM_cons] at h
    cases hpop : popFirstCompleted i l with
    | none => rw [hpop] at h; cases h
    | some l1 =>
      rw [hpop] at h
      exact (ih l1 l' h).trans (popFirstCompleted_sublist hpop)

theorem Inv_start (p : Platform) (hp : platformWF p) : Inv (startState p) := by
  refine ⟨?_, ?_, ?_, ?_, hp, ?_, ?_⟩ <;>
    simp [startState, current_time]

/-- `finish` on a running handler preserves the invariant, keeps the
clock, and dispatches exactly one `SimulationEnds` event at
`current_time`. -/
theorem finish_running_preserves {s : GridState} (hI : Inv s)
    (hrun : s.is_running = true) :
    Inv (finish s) ∧ current_time s ≤ current_time (finish s) ∧
    ∃ ds, (finish s).dispatched = s.dispatched ++ ds ∧
      ∀ e ∈ ds, e.timestamp = (current_time (finish s) : ℚ) := by
  rw [finish_running_eq s hrun]
  refine ⟨⟨?_, ?_, ?_, ?_, hI.plat, ?_, ?_⟩, le_refl _,
    ⟨[⟨(current_time s : ℚ), .simulationEnds⟩], rfl, ?_⟩⟩
  · exact List.sorted_nil
  · intro e he
    cases he
  · intro pr hpr
    cases hpr
  · intro pr hpr
    cases hpr
  · rw [List.pairwise_append]
    refine ⟨hI.logmono, List.pairwise_singleton _ _, ?_⟩
    intro a ha b hb
    rw [List.mem_singleton.mp hb]
    simp only [Int.floor_intCast]
    exact hI.logub a ha
  · intro e he
    rcases List.mem_append.mp he with he | he
    · exact hI.logub e he
    · rw [List.mem_singleton.mp he]
      simp [current_time]
  · intro e he
    rw [List.mem_singleton.mp he]
    rfl

theorem takeWhile_pred {p : SimEvent → Bool} :
    ∀ {l : List SimEvent} {x : SimEvent}, x ∈ l.takeWhile p → p x = true := by
  intro l
  induction l with
  | nil => intro x hx; cases hx
  | cons a as ih =>
    intro x hx
    by_cases hpa : p a = true
    · simp only [List.takeWhile_cons, hpa, if_true, cond_true] at hx
      rcases List.mem_cons.mp hx with rfl | hx
      · exact hpa
      · exact ih hx
    · rw [Bool.not_eq_true] at hpa
      simp only [List.takeWhile_cons, hpa, if_false, cond_false] at hx
      cases hx

/-- Every driver call preserves the run invariant, never decreases
`current_time`, and appends to the dispatch log only events whose
timestamp is the (new) `current_time`. -/
theorem stepOp_preserves {s s' : GridState} {op : GridOp} (hI : Inv s)
    (hwf : wfOp op) (h : stepOp s op = some s') :
    Inv s' ∧ current_time s ≤ current_time s' ∧
    ∃ ds, s'.dispatched = s.dispatched ++ ds ∧
      ∀ e ∈ ds, e.timestamp = (current_time s' : ℚ) := by
  cases op with
  | registerProfile name p =>
    simp only [stepOp, Option.some.injEq] at h
    subst h
    refine ⟨⟨hI.sorted, hI.lb, ?_, hI.jobsWF, hI.plat, hI.logmono, hI.logub⟩,
      le_refl _, ⟨[], by simp [register_profile],
        fun e he => absurd he (List.not_mem_nil e)⟩⟩
    intro pr hpr
    rcases dictInsert_mem hpr with rfl | hpr
    · exact hwf
    · exact hI.profs pr hpr
  | registerJob id profile res walltime user =>
    simp only [stepOp, Option.some.injEq] at h
    subst h
    refine ⟨⟨sortedInsert_sorted _ _ hI.sorted, ?_, hI.profs, ?_, hI.plat,
      hI.logmono, hI.logub⟩, le_refl _, ⟨[], by simp [register_job],
        fun e he => absurd he (List.not_mem_nil e)⟩⟩
    · intro e he
      rcases (sortedInsert_mem _ _ _ _).mp he with rfl | he
      · exact le_refl _
      · exact hI.lb e he
    · intro pr hpr
      rcases dictInsert_mem hpr with rfl | hpr
      · exact hwf
      · exact hI.jobsWF pr hpr
  | executeJob job_id alloc =>
    simp only [stepOp] at h
    unfold execute_job at h
    split at h
    · cases h
    · next job hjob =>
      split at h
      · cases h
      · next ms hms =>
        split at h
        · cases h
        · next prof hprof =>
          split at h
          · cases h
          · next runtime hrt =>
            cases h
            have hms0 : 0 ≤ ms :=
              minSpeed_nonneg (get_resources_speed_nonneg hI.plat) hms
            have hcpu : 0 ≤ prof.cpu := hI.profs (job.profile, prof) (lookup_mem hprof)
            have hwall : 0 ≤ job.walltime := hI.jobsWF (job_id, job) (lookup_mem hjob)
            have hrt0 : (0 : ℤ) ≤ runtime := by
              split at hrt
              · split at hrt
                · cases hrt
                · injection hrt with hrt
                  rw [← hrt]
                  exact pyInt_nonneg (div_nonneg hcpu hms0)
              · split at hrt
                · cases hrt
                · injection hrt with hrt
                  rw [← hrt]
                  exact pyInt_nonneg
                    (div_nonneg (div_nonneg hcpu (Nat.cast_nonneg _)) hms0)
              · cases hrt
            have he2 : (current_time s : ℚ) ≤
                (current_time s : ℚ) + min (runtime : ℚ) job.walltime := by
              have h0 : (0 : ℚ) ≤ min (runtime : ℚ) job.walltime :=
                le_min (by exact_mod_cast hrt0) hwall
              linarith
            refine ⟨⟨sortedInsert_sorted _ _ (sortedInsert_sorted _ _ hI.sorted),
              ?_, hI.profs, ?_, hI.plat, hI.logmono, hI.logub⟩, le_refl _,
              ⟨[], by simp, fun e he => absurd he (List.not_mem_nil e)⟩⟩
            · intro e he
              rcases (sortedInsert_mem _ _ _ _).mp he with rfl | he
              · exact he2
              · rcases (sortedInsert_mem _ _ _ _).mp he with rfl | he
                · exact le_refl _
                · exact hI.lb e he
            · intro pr hpr
              exact hI.jobsWF pr (List.mem_of_mem_filter hpr)
  | rejectJob job_id =>
    simp only [stepOp] at h
    unfold reject_job at h
    split at h
    · cases h
      refine ⟨⟨hI.sorted, hI.lb, hI.profs, ?_, hI.plat, hI.logmono, hI.logub⟩,
        le_refl _, ⟨[], by simp, fun e he => absurd he (List.not_mem_nil e)⟩⟩
      intro pr hpr
      exact hI.jobsWF pr (List.mem_of_mem_filter hpr)
    · cases h
  | killJob job_ids =>
    simp only [stepOp] at h
    unfold kill_job at h
    split at h
    · cases h
    · next evs hfold =>
      cases h
      have hsub := kill_fold_sublist job_ids s.events evs hfold
      refine ⟨⟨sortedInsert_sorted _ _ (hI.sorted.sublist hsub), ?_, hI.profs,
        hI.jobsWF, hI.plat, hI.logmono, hI.logub⟩, le_refl _,
        ⟨[], by simp, fun e he => absurd he (List.not_mem_nil e)⟩⟩
      intro e he
      rcases (sortedInsert_mem _ _ _ _).mp he with rfl | he
      · exact le_refl _
      · exact hI.lb e (hsub.subset he)
  | callMeLater at0 =>
    simp only [stepOp] at h
    unfold call_me_later at h
    simp only [] at h
    split at h
    · cases h
    · next hlt =>
      split at h
      · cases h
        exact ⟨hI, le_refl _, ⟨[], by simp,
          fun e he => absurd he (List.not_mem_nil e)⟩⟩
      · cases h
        have hge : current_time s ≤ ⌊at0⌋ := not_lt.mp hlt
        refine ⟨⟨sortedInsert_sorted _ _ hI.sorted, ?_, hI.profs, hI.jobsWF,
          hI.plat, hI.logmono, hI.logub⟩, le_refl _,
          ⟨[], by simp, fun e he => absurd he (List.not_mem_nil e)⟩⟩
        intro e he
        rcases (sortedInsert_mem _ _ _ _).mp he with rfl | he
        · show ((current_time s : ℤ) : ℚ) ≤ ((⌊at0⌋ : ℤ) : ℚ)
          exact_mod_cast hge
        · exact hI.lb e he
  | setResourcesPstate resources pstate =>
    simp only [stepOp] at h
    unfold set_resources_pstate at h
    split at h
    · cases h
    · next acc hacc =>
      cases h
      have hkeys : ∀ k ∈ acc.timestamps, (0 : ℤ) ≤ k.1 :=
        fold_processResource_keys_nonneg hI.plat _ _ _
          (fun k hk => absurd hk (List.not_mem_nil k)) hacc
      have h1 := foldl_insert_inv
        (fun pr : ℕ × List ℕ =>
          ⟨(current_time s : ℚ), .resourcePowerStateChanged pr.2 pr.1⟩)
        (current_time s : ℚ) acc.transitions s.events hI.sorted hI.lb
        (fun b _ => le_refl _)
      have h2 := foldl_insert_inv
        (fun pr : ℤ × List ℕ =>
          ⟨(current_time s : ℚ) + (pr.1 : ℚ), .resourcePowerStateChanged pr.2 pstate⟩)
        (current_time s : ℚ) acc.timestamps _ h1.1 h1.2 ?_
      · exact ⟨⟨h2.1, h2.2, hI.profs, hI.jobsWF, hI.plat, hI.logmono, hI.logub⟩,
          le_refl _, ⟨[], by simp, fun e he => absurd he (List.not_mem_nil e)⟩⟩
      · intro b hb
        have h0 : (0 : ℤ) ≤ b.1 := hkeys b hb
        have h0q : (0 : ℚ) ≤ (b.1 : ℚ) := by exact_mod_cast h0
        simp only []
        linarith
  | notifyOp nt =>
    simp only [stepOp, Option.some.injEq] at h
    subst h
    by_cases hc : nt = NotifyType.no_more_static_job_to_submit ∨
        nt = NotifyType.registration_finished
    · have hnot : notify s nt = { s with
          submitter_ended := true
          events := sortedInsert SimEvent.timestamp
            ⟨(current_time s : ℚ), .notifyData nt⟩ s.events } := by
        unfold notify
        rw [if_pos hc]
        rfl
      rw [hnot]
      refine ⟨⟨sortedInsert_sorted _ _ hI.sorted, ?_, hI.profs, hI.jobsWF,
        hI.plat, hI.logmono, hI.logub⟩, le_refl _,
        ⟨[], by simp, fun e he => absurd he (List.not_mem_nil e)⟩⟩
      intro e he
      rcases (sortedInsert_mem _ _ _ _).mp he with rfl | he
      · exact le_refl _
      · exact hI.lb e he
    · have hnot : notify s nt = { s with
          events := sortedInsert SimEvent.timestamp
            ⟨(current_time s : ℚ), .notifyData nt⟩ s.events } := by
        unfold notify
        rw [if_neg hc]
      rw [hnot]
      refine ⟨⟨sortedInsert_sorted _ _ hI.sorted, ?_, hI.profs, hI.jobsWF,
        hI.plat, hI.logmono, hI.logub⟩, le_refl _,
        ⟨[], by simp, fun e he => absurd he (List.not_mem_nil e)⟩⟩
      intro e he
      rcases (sortedInsert_mem _ _ _ _).mp he with rfl | he
      · exact le_refl _
      · exact hI.lb e he
  | proceed =>
    simp only [stepOp] at h
    unfold proceed_simulation at h
    split at h
    · cases h
    · next hnrun =>
      have hrun : s.is_running = true := by
        cases hb : s.is_running with
        | false => exact absurd hb hnrun
        | true => rfl
      split at h
      · cases h
        exact finish_running_preserves hI hrun
      · split at h
        · next e es hev =>
          cases h
          have hin : e ∈ s.events := by
            rw [hev]
            exact List.mem_cons_self e es
          have hle : (current_time s : ℚ) ≤ e.timestamp := hI.lb e hin
          have hctle : current_time s ≤ ⌊e.timestamp⌋ := Int.le_floor.mpr hle
          have hmin : ∀ x ∈ s.events, e.timestamp ≤ x.timestamp := by
            intro x hx
            rw [hev] at hx
            rcases List.mem_cons.mp hx with rfl | hx
            · exact le_refl _
            · have hs2 := hI.sorted
              rw [hev, List.sorted_cons] at hs2
              exact hs2.1 x hx
          have hds : ∀ x ∈ s.events.takeWhile
              (fun x => x.timestamp == ((⌊e.timestamp⌋ : ℤ) : ℚ)),
              x.timestamp = ((⌊e.timestamp⌋ : ℤ) : ℚ) := by
            intro x hx
            exact eq_of_beq (takeWhile_pred hx)
          refine ⟨⟨?_, ?_, hI.profs, hI.jobsWF, hI.plat, ?_, ?_⟩, hctle,
            ⟨s.events.takeWhile
              (fun x => x.timestamp == ((⌊e.timestamp⌋ : ℤ) : ℚ)), rfl, hds⟩⟩
          · exact hI.sorted.sublist (List.dropWhile_sublist _)
          · intro x hx
            have hx2 : x ∈ s.events := (List.dropWhile_sublist _).subset hx
            calc ((⌊e.timestamp⌋ : ℤ) : ℚ) ≤ e.timestamp := Int.floor_le _
              _ ≤ x.timestamp := hmin x hx2
          · show List.Pairwise (fun a b => ⌊a.timestamp⌋ ≤ ⌊b.timestamp⌋)
              (s.dispatched ++ s.events.takeWhile
                (fun x => x.timestamp == ((⌊e.timestamp⌋ : ℤ) : ℚ)))
            rw [List.pairwise_append]
            refine ⟨hI.logmono, ?_, ?_⟩
            · refine List.pairwise_of_forall_mem_list ?_
              intro a ha b hb
              rw [hds a ha, hds b hb]
            · intro a ha b hb
              rw [hds b hb]
              simp only [Int.floor_intCast]
              exact (hI.logub a ha).trans hctle
          · show ∀ x ∈ s.dispatched ++ s.events.takeWhile
                (fun x => x.timestamp == ((⌊e.timestamp⌋ : ℤ) : ℚ)),
              ⌊x.timestamp⌋ ≤ ⌊e.timestamp⌋
            intro x hx
            rcases List.mem_append.mp hx with hx | hx
            · exact (hI.logub x hx).trans hctle
            · rw [hds x hx]
              simp
        · cases h
  | finishOp =>
    simp only [stepOp, Option.some.injEq] at h
    subst h
    by_cases hrun : s.is_running = true
    · exact finish_running_preserves hI hrun
    · have hfin : finish s = s := by
        unfold finish
        rw [if_pos ?_]
        cases hb : s.is_running with
        | false => rfl
        | true => exact absurd hb hrun
      rw [hfin]
      exact ⟨hI, le_refl _, ⟨[], by simp,
        fun e he => absurd he (List.not_mem_nil e)⟩⟩

/-- C8 (amended): in every run of the self-contained backend with
well-formed inputs, the event queue stays sorted by timestamp, the floored
timestamps of dispatched events are monotonically non-decreasing, and
every further driver call keeps `current_time` non-decreasing and
dispatches only events whose timestamp equals the new `current_time`
(hence, whenever an event is processed, `current_time` is exactly its
timestamp). -/
theorem C8_grid_run_invariants (s : GridState) (h : ReachableRun s) :
    s.events.Sorted (fun a b => a.timestamp ≤ b.timestamp) ∧
    s.dispatched.Pairwise (fun a b => ⌊a.timestamp⌋ ≤ ⌊b.timestamp⌋) ∧
    (∀ (op : GridOp) (s' : GridState), wfOp op → stepOp s op = some s' →
      current_time s ≤ current_time s' ∧
      ∃ ds, s'.dispatched = s.dispatched ++ ds ∧
        ∀ e ∈ ds, e.timestamp = (current_time s' : ℚ)) := by
  have hI : Inv s := by
    induction h with
    | start p hp => exact Inv_start p hp
    | step op hr hwf hstep ih => exact (stepOp_preserves ih hwf hstep).1
  exact ⟨hI.sorted, hI.logmono,
    fun op s' hwf hstep => (stepOp_preserves hI hwf hstep).2⟩

theorem demoPlatformWF : platformWF demoPlatform := by
  intro n hn
  rw [demoPlatform, List.mem_singleton] at hn
  subst hn
  constructor <;> intro x hx <;> fin_cases hx <;> norm_num [demoNode]

/-- Witness for the amended C8 at the started demo platform. -/
theorem C8_grid_run_invariants_witness :
    ReachableRun (startState demoPlatform) ∧
    ((startState demoPlatform).events.Sorted (fun a b => a.timestamp ≤ b.timestamp) ∧
     (startState demoPlatform).dispatched.Pairwise
       (fun a b => ⌊a.timestamp⌋ ≤ ⌊b.timestamp⌋) ∧
     (∀ (op : GridOp) (s' : GridState), wfOp op →
       stepOp (startState demoPlatform) op = some s' →
       current_time (startState demoPlatform) ≤ current_time s' ∧
       ∃ ds, s'.dispatched = (startState demoPlatform).dispatched ++ ds ∧
         ∀ e ∈ ds, e.timestamp = (current_time s' : ℚ))) :=
  ⟨ReachableRun.start demoPlatform demoPlatformWF,
   C8_grid_run_invariants (startState demoPlatform)
     (ReachableRun.start demoPlatform demoPlatformWF)⟩

theorem c8step1 :
    stepOp (startState demoPlatform) (.registerProfile "p" demoProfile) = some c8s1 := rfl

theorem c8step2 :
    stepOp c8s1 (.registerJob "f" "p" 1 (3 / 2) "") = some c8s2 := rfl

theorem c8step3 : stepOp c8s2 (.executeJob "f" [0]) = some c8s3 := by
  show execute_job c8s2 "f" [0] = some c8s3
  refine ((execute_job_eval c8s2 "f" [0] demoJobF demoProfile 2
    rfl rfl rfl (by norm_num) (by norm_num [demoProfile]) (by norm_num [demoJobF])).1
    rfl).trans ?_
  norm_num [c8s1, c8s2, c8s3, startState, demoProfile, demoJobF, current_time,
    sortedInsert, dictRemove, Rat.floor_def, min_def]

theorem c8step4 : stepOp c8s3 GridOp.proceed = some c8s4 := by
  show proceed_simulation c8s3 = some c8s4
  rw [proceed_simulation_cons rfl rfl]
  norm_num [_dispatch_events, c8s1, c8s2, c8s3, c8s4, startState, current_time,
    Rat.floor_def]

theorem c8step5 : stepOp c8s4 GridOp.proceed = some c8s5 := by
  show proceed_simulation c8s4 = some c8s5
  rw [proceed_simulation_cons rfl rfl]
  norm_num [_dispatch_events, c8s1, c8s2, c8s3, c8s4, c8s5, startState, current_time,
    Rat.floor_def]

/-- C8 counterexample: in the reachable run that executes job "f" with
walltime 3/2 and advances past it, `current_time` is 1 while the most
recently processed event (the job start at time 0) has floored timestamp
0 — `current_time` is not the floor of the most recently processed
event's timestamp. -/
theorem C8_grid_counterexample :
    ReachableRun c8s5 ∧
    current_time c8s5 = 1 ∧
    lastDispatchedFloor c8s5 = some 0 ∧
    (0 : ℤ) ≠ current_time c8s5 := by
  have h0 : ReachableRun (startState demoPlatform) :=
    ReachableRun.start demoPlatform demoPlatformWF
  have h1 : ReachableRun c8s1 :=
    ReachableRun.step _ h0 (by norm_num [wfOp, demoProfile]) c8step1
  have h2 : ReachableRun c8s2 :=
    ReachableRun.step _ h1 (by norm_num [wfOp]) c8step2
  have h3 : ReachableRun c8s3 :=
    ReachableRun.step (GridOp.executeJob "f" [0]) h2 trivial c8step3
  have h4 : ReachableRun c8s4 :=
    ReachableRun.step GridOp.proceed h3 trivial c8step4
  have h5 : ReachableRun c8s5 :=
    ReachableRun.step GridOp.proceed h4 trivial c8step5
  refine ⟨h5, ?_, ?_, ?_⟩
  · norm_num [current_time, c8s5, c8s4, c8s3, c8s2, c8s1, startState, Rat.floor_def]
  · norm_num [lastDispatchedFloor, c8s5, c8s4, c8s3, c8s2, c8s1, startState,
      Rat.floor_def]
  · norm_num [current_time, c8s5, c8s4, c8s3, c8s2, c8s1, startState, Rat.floor_def]

end GridSimulatorHandler

end BatsimPy
